import Mathlib

/-!
Verification development for the PyFlow download manager
(`src/python-cli/download_manager.py` and `src/python-cli/server.py`).

The development shallowly embeds the code that the checked properties are
about: the URL playlist-parameter stripping helper, the two yt-dlp
invocation builders (binary command line and library option dict), and the
queue / worker-pool scheduler as an explicit labelled transition system over
a heap of tasks.
-/

namespace PyFlow

/-! ## URL helpers: embedding of `_strip_playlist_params`

The Python code uses `urllib.parse`: `urlparse`, `parse_qs`, `urlencode`
(with `doseq=True`) and `urlunparse`.  We embed the relevant fragment of
those stdlib functions, faithful for ASCII URLs without path parameters
(no `;` path segments), which covers every URL shape the properties
mention. -/

/-- One hex digit value.  Helper for percent-decoding. -/
def hexVal (c : Char) : Nat :=
  if c.isDigit then c.toNat - '0'.toNat
  else if 'a' ≤ c ∧ c ≤ 'f' then c.toNat - 'a'.toNat + 10
  else c.toNat - 'A'.toNat + 10

/-- Whether a character is a hexadecimal digit. -/
def isHexChar (c : Char) : Bool :=
  c.isDigit || ('a' ≤ c && c ≤ 'f') || ('A' ≤ c && c ≤ 'F')

/-- ASCII fragment of `urllib.parse.unquote` composed with the `+ → space`
replacement done by `parse_qsl`: decodes `%XX` escapes and turns `+` into a
space, leaving malformed escapes untouched. -/
def unquotePlus : List Char → List Char
  | [] => []
  | '+' :: rest => ' ' :: unquotePlus rest
  | '%' :: h₁ :: h₂ :: rest =>
      if isHexChar h₁ && isHexChar h₂ then
        Char.ofNat (16 * hexVal h₁ + hexVal h₂) :: unquotePlus rest
      else
        '%' :: unquotePlus (h₁ :: h₂ :: rest)
  | c :: rest => c :: unquotePlus rest

/-- Characters `urllib.parse.quote_plus` leaves unescaped (the always-safe
set: letters, digits, `_`, `.`, `-`, `~`). -/
def isUrlSafeChar (c : Char) : Bool :=
  c.isAlphanum || c == '_' || c == '.' || c == '-' || c == '~'

/-- Hex digit character for a value below 16, upper case as CPython emits. -/
def hexDigitChar (n : Nat) : Char :=
  if n < 10 then Char.ofNat ('0'.toNat + n) else Char.ofNat ('A'.toNat + n - 10)

/-- ASCII fragment of `urllib.parse.quote_plus` on one character: a space
becomes `+`, safe characters stay, everything else is percent-encoded. -/
def quotePlusChar (c : Char) : List Char :=
  if c = ' ' then ['+']
  else if isUrlSafeChar c then [c]
  else ['%', hexDigitChar (c.toNat / 16 % 16), hexDigitChar (c.toNat % 16)]

/-- ASCII fragment of `urllib.parse.quote_plus` on a string. -/
def quotePlus (s : String) : String :=
  ⟨(s.data.map quotePlusChar).flatten⟩

/-- Split a character list at every occurrence of `sep`
(like Python `str.split(sep)`). -/
def splitOnChar (sep : Char) : List Char → List (List Char)
  | [] => [[]]
  | c :: rest =>
      match splitOnChar sep rest with
      | [] => if c = sep then [[], []] else [[c]]
      | g :: gs => if c = sep then [] :: g :: gs else (c :: g) :: gs

/-- Split a character list at the first occurrence of `sep`
(like Python `str.split(sep, 1)`); `none` when `sep` does not occur. -/
def splitOnceOpt (sep : Char) : List Char → Option (List Char × List Char)
  | [] => none
  | c :: rest =>
      if c = sep then some ([], rest)
      else (splitOnceOpt sep rest).map (fun p => (c :: p.1, p.2))

/-- Embedding of `urllib.parse.parse_qsl(qs)` with the default
`keep_blank_values=False`: split on `&`, drop empty fields, drop fields
without `=` and fields with an empty value, percent-decode names and
values. -/
def parseQsl (qs : String) : List (String × String) :=
  (splitOnChar '&' qs.data).filterMap fun fld =>
    if fld = [] then none
    else
      match splitOnceOpt '=' fld with
      | none => none
      | some (k, v) =>
          if v = [] then none
          else some (⟨unquotePlus k⟩, ⟨unquotePlus v⟩)

/-- One step of `parse_qs`'s dict building: append the value to an existing
key's list, else append a fresh single-value entry; dict order is first
occurrence of each key. -/
def addQsPair (acc : List (String × List String)) (kv : String × String) :
    List (String × List String) :=
  if acc.any (fun g => g.1 = kv.1) then
    acc.map (fun g => if g.1 = kv.1 then (g.1, g.2 ++ [kv.2]) else g)
  else acc ++ [(kv.1, [kv.2])]

/-- Embedding of `urllib.parse.parse_qs(qs)`: group the `parse_qsl` pairs by
key in first-occurrence order. -/
def parseQs (qs : String) : List (String × List String) :=
  (parseQsl qs).foldl addQsPair []

/-- Embedding of `urllib.parse.urlencode(params, doseq=True)` on a
`parse_qs`-style grouped dict: one `k=v` field per value, keys and values
passed through `quote_plus`, joined with `&`. -/
def urlencodeDoseq (groups : List (String × List String)) : String :=
  String.intercalate "&"
    ((groups.map (fun g => g.2.map (fun v => quotePlus g.1 ++ "=" ++ quotePlus v))).flatten)

/-- The six components returned by `urllib.parse.urlparse`. -/
structure UrlParts where
  scheme : String
  netloc : String
  path : String
  urlParams : String
  query : String
  fragment : String
deriving Repr, DecidableEq

/-- Whether a character may appear in a URL scheme after the first letter. -/
def isSchemeChar (c : Char) : Bool :=
  c.isAlphanum || c == '+' || c == '-' || c == '.'

/-- Embedding of `urllib.parse.urlparse` for ASCII URLs without `;` path
parameters: split off the fragment at the first `#`, the query at the first
`?`, recognise a scheme before a `:` (lower-cased, as CPython does), and a
`//netloc` up to the next `/`. -/
def parseUrl (url : String) : UrlParts :=
  let (pre, frag) :=
    match splitOnceOpt '#' url.data with
    | some (a, b) => (a, b)
    | none => (url.data, [])
  let (pre, query) :=
    match splitOnceOpt '?' pre with
    | some (a, b) => (a, b)
    | none => (pre, [])
  let (scheme, rest) :=
    match splitOnceOpt ':' pre with
    | some (sch, r) =>
        if sch ≠ [] ∧ (sch.headD 'a').isAlpha ∧ sch.all isSchemeChar then
          (sch.map Char.toLower, r)
        else ([], pre)
    | none => ([], pre)
  let (netloc, path) :=
    match rest with
    | '/' :: '/' :: r => (r.takeWhile (fun c => c ≠ '/'), r.dropWhile (fun c => c ≠ '/'))
    | _ => ([], rest)
  { scheme := ⟨scheme⟩, netloc := ⟨netloc⟩, path := ⟨path⟩,
    urlParams := "", query := ⟨query⟩, fragment := ⟨frag⟩ }

/-- Embedding of `urllib.parse.urlunparse` (via `urlunsplit`): re-attach
`;params`, `?query` and `#fragment` only when non-empty, and `//netloc`
when the netloc is non-empty. -/
def urlunparse (p : UrlParts) : String :=
  let url := p.path
  let url := if p.urlParams ≠ "" then url ++ ";" ++ p.urlParams else url
  let url :=
    if p.netloc ≠ "" ∨ (url ≠ "" ∧ url.take 2 = "//") then
      (if url ≠ "" ∧ url.take 1 ≠ "/" then "//" ++ p.netloc ++ "/" ++ url
       else "//" ++ p.netloc ++ url)
    else url
  let url := if p.scheme ≠ "" then p.scheme ++ ":" ++ url else url
  let url := if p.query ≠ "" then url ++ "?" ++ p.query else url
  if p.fragment ≠ "" then url ++ "#" ++ p.fragment else url

/-- The query-level core of `_strip_playlist_params`: parse the query with
`parse_qs`, `pop` the `list` and `index` keys, re-encode with
`urlencode(..., doseq=True)`. -/
def stripQueryParams (qs : String) : String :=
  urlencodeDoseq
    ((parseQs qs).filter (fun g => ¬(g.1 = "list" ∨ g.1 = "index")))

/-- Embedding of `DownloadManager._strip_playlist_params`: parse the URL,
drop the `list` and `index` query parameters, re-assemble. -/
def stripPlaylistParams (url : String) : String :=
  let parsed := parseUrl url
  urlunparse { parsed with query := stripQueryParams parsed.query }

example :
    stripPlaylistParams "https://x.test/watch?v=abc&list=PL1&index=3"
      = "https://x.test/watch?v=abc" := by decide

example :
    stripPlaylistParams "https://x.test/watch?a=1&b=2&a=3&list=PL"
      = "https://x.test/watch?a=1&a=3&b=2" := by decide

/-! ## Task model

Embedding of the `DownloadTask` dataclass.  The task id is the store key of
the system state below, so it is not repeated inside the structure; the
fractional `progress` float only ever matters at the values `0` and `100`,
so it is carried as a natural number of percent. -/

/-- The `status` field's possible values (a closed string enum in the
source: `Queued | Downloading | Processing | Completed | Failed |
Cancelled`). -/
inductive Status
  | Queued
  | Downloading
  | Processing
  | Completed
  | Failed
  | Cancelled
deriving Repr, DecidableEq

/-- Terminal statuses: `Completed`, `Failed`, `Cancelled`. -/
def Status.isTerminal : Status → Bool
  | .Completed => true
  | .Failed => true
  | .Cancelled => true
  | _ => false

/-- Embedding of the `DownloadTask` dataclass (minus the store key and the
creation timestamp, which no checked property mentions). -/
structure Task where
  url : String
  title : String
  download_type : String
  quality : String
  format_type : String
  is_playlist : Bool
  status : Status := .Queued
  progress : Nat := 0
  speed : String := "-"
  eta : String := "-"
  file_path : Option String := none
  error : Option String := none
deriving Repr, DecidableEq

/-! ## The two yt-dlp invocation builders -/

/-- Model of `str.replace("p", "")` as used on the quality string: remove
every occurrence of the character `p`. -/
def stripPChar (s : String) : String :=
  ⟨s.data.filter (fun c => c ≠ 'p')⟩

/-- Model of `Path(p).parent` on a POSIX-style path string: drop the last
`/`-separated component.  Only its position in the argument list matters to
the checked properties. -/
def parentDir (p : String) : String :=
  ⟨((p.data.reverse.dropWhile (fun c => c ≠ '/')).drop 1).reverse⟩

/-- Embedding of `DownloadManager._build_binary_command`: the CLI argument
list for the yt-dlp binary.  `binPath` is `self._ytdlp_binary` (non-null
whenever this builder runs), `ffmpegPath` is `self._ffmpeg_path`. -/
def buildBinaryCommand (binPath : String) (ffmpegPath : Option String) (t : Task) :
    List String :=
  let cmd := [binPath]
  let cmd :=
    if t.download_type = "audio" then
      cmd ++ ["-x", "--audio-format", t.format_type,
              "--audio-quality", t.quality, "--add-metadata"]
    else
      let height := stripPChar t.quality
      if height = "best" then
        cmd ++ ["-f", "bestvideo+bestaudio/best"]
      else if height = "2160" ∨ height = "1440" then
        cmd ++ ["-f", "bestvideo[height<=" ++ height ++ "][format=" ++ t.format_type
                       ++ "]+bestaudio/best",
                "--merge-output-format", t.format_type, "--add-metadata"]
      else
        cmd ++ ["-f", "bestvideo[height<=" ++ height ++ "][format=" ++ t.format_type
                       ++ "]+bestaudio/best",
                "--merge-output-format", t.format_type]
  let cmd :=
    match ffmpegPath with
    | some p => cmd ++ ["--ffmpeg-location", parentDir p]
    | none => cmd
  cmd ++ ["-o", "%(title)s.%(ext)s", t.url]

/-- One entry of the `postprocessors` list built by `_build_ydl_options`. -/
inductive Postprocessor
  | extractAudio (preferredcodec : String) (preferredquality : String)
  | metadata
deriving Repr, DecidableEq

/-- Embedding of the option dict built by `_build_ydl_options` (the fields
whose values the code chooses; an absent dict key is `none`). -/
structure YdlOpts where
  outtmpl : String
  quiet : Bool := true
  no_warnings : Bool := true
  noprogress : Bool := true
  extract_flat : Bool := false
  writethumbnail : Bool := false
  ffmpeg_location : Option String := none
  format : String := ""
  postprocessors : List Postprocessor := []
  merge_output_format : Option String := none
  noplaylist : Bool := true
deriving Repr, DecidableEq

/-- Embedding of `DownloadManager._build_ydl_options`. -/
def buildYdlOptions (downloadDir : String) (ffmpegPath : Option String) (t : Task) :
    YdlOpts :=
  let opts : YdlOpts := { outtmpl := downloadDir ++ "/%(title)s.%(ext)s" }
  let opts := { opts with ffmpeg_location := ffmpegPath.map parentDir }
  let opts :=
    if t.download_type = "audio" then
      { opts with
          format := "bestaudio/best",
          postprocessors :=
            [.extractAudio t.format_type t.quality, .metadata] }
    else
      let fmt :=
        if t.quality = "best" then "bestvideo+bestaudio/best"
        else
          let h := stripPChar t.quality
          "bestvideo[height<=" ++ h ++ "]+bestaudio/best[height<=" ++ h ++ "]"
      { opts with format := fmt, merge_output_format := some t.format_type }
  { opts with noplaylist := !t.is_playlist }

/-! ## Format-selection policy extraction

To compare the two builders, a common semantic summary is read off each
artefact: the height ceiling in the format-selector expression, the
output-container merge directive, and the audio extraction/conversion
request. -/

/-- Decimal value of a digit list. -/
def digitsVal (l : List Char) : Nat :=
  l.foldl (fun a c => a * 10 + (c.toNat - '0'.toNat)) 0

/-- Height ceiling stated by a yt-dlp format-selector string: the number
following the first `height<=` filter, if any. -/
def findHeightCap : List Char → Option Nat
  | [] => none
  | c :: rest =>
      if "height<=".data.isPrefixOf (c :: rest) then
        some (digitsVal (((c :: rest).drop 8).takeWhile Char.isDigit))
      else findHeightCap rest

/-- Flag-level summary of a binary command line. -/
structure CmdScan where
  fmtSel : Option String := none
  mergeFmt : Option String := none
  extractAudioFlag : Bool := false
  audioFormat : Option String := none
  audioQuality : Option String := none
deriving Repr, DecidableEq

/-- Scan a yt-dlp argument list, reading the flags that carry the format
policy; flags that take an argument consume it, so argument values are
never themselves read as flags. -/
def scanCmd (acc : CmdScan) : List String → CmdScan
  | [] => acc
  | [a] => if a = "-x" then { acc with extractAudioFlag := true } else acc
  | a :: b :: rest =>
      if a = "-f" then scanCmd { acc with fmtSel := some b } rest
      else if a = "--merge-output-format" then scanCmd { acc with mergeFmt := some b } rest
      else if a = "--audio-format" then scanCmd { acc with audioFormat := some b } rest
      else if a = "--audio-quality" then scanCmd { acc with audioQuality := some b } rest
      else if a = "--ffmpeg-location" then scanCmd acc rest
      else if a = "-o" then scanCmd acc rest
      else if a = "-x" then scanCmd { acc with extractAudioFlag := true } (b :: rest)
      else scanCmd acc (b :: rest)
termination_by l => l.length
decreasing_by all_goals simp_arith

/-- Flag summary of the binary command for a task (dropping `argv[0]`, the
binary path itself). -/
def binaryScan (binPath : String) (ffmpegPath : Option String) (t : Task) : CmdScan :=
  scanCmd {} ((buildBinaryCommand binPath ffmpegPath t).drop 1)

/-- Height ceiling requested by the binary command's format selector. -/
def binaryHeightCap (binPath : String) (ffmpegPath : Option String) (t : Task) :
    Option Nat :=
  (binaryScan binPath ffmpegPath t).fmtSel.bind (fun s => findHeightCap s.data)

/-- Merge directive of the binary command. -/
def binaryMerge (binPath : String) (ffmpegPath : Option String) (t : Task) :
    Option String :=
  (binaryScan binPath ffmpegPath t).mergeFmt

/-- Audio extraction/conversion request of the binary command: present when
`-x` is passed, carrying the `--audio-format` and `--audio-quality`
values. -/
def binaryAudio (binPath : String) (ffmpegPath : Option String) (t : Task) :
    Option (Option String × Option String) :=
  let sc := binaryScan binPath ffmpegPath t
  if sc.extractAudioFlag then some (sc.audioFormat, sc.audioQuality) else none

/-- Height ceiling requested by the library option dict's format selector. -/
def ydlHeightCap (downloadDir : String) (ffmpegPath : Option String) (t : Task) :
    Option Nat :=
  findHeightCap (buildYdlOptions downloadDir ffmpegPath t).format.data

/-- Merge directive of the library option dict. -/
def ydlMerge (downloadDir : String) (ffmpegPath : Option String) (t : Task) :
    Option String :=
  (buildYdlOptions downloadDir ffmpegPath t).merge_output_format

/-- Audio extraction/conversion request of the library option dict: the
`FFmpegExtractAudio` postprocessor's codec and quality, when present. -/
def ydlAudio (downloadDir : String) (ffmpegPath : Option String) (t : Task) :
    Option (String × String) :=
  (buildYdlOptions downloadDir ffmpegPath t).postprocessors.findSome?
    (fun pp =>
      match pp with
      | .extractAudio c q => some (c, q)
      | .metadata => none)

/-! ## The scheduler / worker pool

`DownloadManager` state and its operations, embedded as an explicit
transition system.  Python task objects are shared mutable references (the
queue, the active index and the history all alias the same
`DownloadTask`); the embedding models the heap as a store `tasks` keyed by
task id, while `queue`, `active` and `completed` hold ids.  Each worker
coroutine (`_worker`) is a slot that is either idle or holds the id it is
working on, together with how far through the body it is: `pre` — between
`queue.get()` and the cancelled-check; `chk` — after the cancelled-check,
before `_process_task` sets `Downloading`; `run` — inside
`_process_task`. -/

/-- Worker program position, marking the `await` boundaries of `_worker` /
`_process_task` between which a `cancel_task` call can interleave. -/
inductive WPhase
  | pre
  | chk
  | run
deriving Repr, DecidableEq

/-- Startup configuration: whether the yt-dlp library imported
(`yt_dlp is not None`), the discovered binary and ffmpeg paths, and the
download directory. -/
structure Config where
  hasLib : Bool
  binaryPath : Option String
  ffmpegPath : Option String
  downloadDir : String
deriving Repr, DecidableEq

/-- `DownloadManager.MAX_CONCURRENT`. -/
def MAX_CONCURRENT : Nat := 3

/-- The error message raised by `_process_task` when neither extraction
strategy is available. -/
def noCapabilityMsg : String :=
  "Neither yt-dlp library nor binary is available. Install yt-dlp: pip install yt-dlp"

/-- Association-list lookup in the task store. -/
def lookupT (l : List (Nat × Task)) (id : Nat) : Option Task :=
  (l.find? (fun p => p.1 == id)).map Prod.snd

/-- Point update of the task store (mutation of the shared task object). -/
def setT (l : List (Nat × Task)) (id : Nat) (f : Task → Task) : List (Nat × Task) :=
  l.map (fun p => if p.1 = id then (p.1, f p.2) else p)

/-- Whole state of one `DownloadManager` plus its worker coroutines. -/
structure SysState where
  cfg : Config
  tasks : List (Nat × Task)
  queue : List Nat
  active : List Nat
  completed : List Nat
  workers : List (Option (Nat × WPhase))
  nextId : Nat
deriving Repr, DecidableEq

/-- Current task object for an id. -/
def getTask (s : SysState) (id : Nat) : Option Task :=
  lookupT s.tasks id

/-- Current status for an id. -/
def statusOf (s : SysState) (id : Nat) : Option Status :=
  (getTask s id).map Task.status

/-- Mutate the task object of one id. -/
def updTask (s : SysState) (id : Nat) (f : Task → Task) : SysState :=
  { s with tasks := setT s.tasks id f }

/-- Embedding of `DownloadManager.__init__`: empty queue, index and
history, `MAX_CONCURRENT` idle workers. -/
def initState (cfg : Config) : SysState :=
  { cfg := cfg, tasks := [], queue := [], active := [], completed := [],
    workers := List.replicate MAX_CONCURRENT none, nextId := 0 }

/-- Embedding of `DownloadManager.add_download`: strip playlist parameters
for single-video requests, create the task in `Queued` state, insert it in
the active index and append it to the pending queue, return the fresh
task id.  The `uuid4` id is modeled by the fresh counter `nextId`
(collision-free, as the spec requires of the opaque id). -/
def addDownload (s : SysState) (url download_type : String) (is_playlist : Bool)
    (quality format_type title : String) : SysState × Nat :=
  let url := if is_playlist then url else stripPlaylistParams url
  let id := s.nextId
  let t : Task :=
    { url := url, title := title, download_type := download_type,
      quality := quality, format_type := format_type, is_playlist := is_playlist }
  ({ s with tasks := s.tasks ++ [(id, t)],
            active := s.active ++ [id],
            queue := s.queue ++ [id],
            nextId := id + 1 }, id)

/-- Embedding of `DownloadManager.cancel_task`: when the id is in the
active index, pop it from the index and set the shared task object's status
to `Cancelled`, returning `true`; otherwise return `false` and change
nothing. -/
def cancelTask (s : SysState) (id : Nat) : SysState × Bool :=
  if id ∈ s.active then
    ({ updTask s id (fun t => { t with status := .Cancelled }) with
        active := s.active.erase id }, true)
  else (s, false)

/-- Worker `w` performs `queue.get()`, obtaining the task at the head. -/
def takeTask (s : SysState) (w : Nat) (id : Nat) : SysState :=
  { s with queue := s.queue.tail, workers := s.workers.set w (some (id, .pre)) }

/-- Worker `w` drops a task it found already `Cancelled` (the
`task_done(); continue` branch: no side effect on the task). -/
def skipTask (s : SysState) (w : Nat) : SysState :=
  { s with workers := s.workers.set w none }

/-- Worker `w` passes the cancelled-check and moves on towards
`_process_task` (crossing the `async with semaphore` suspension point). -/
def checkTask (s : SysState) (w : Nat) (id : Nat) : SysState :=
  { s with workers := s.workers.set w (some (id, .chk)) }

/-- First line of `_process_task`: the task's status becomes
`Downloading`. -/
def startTask (s : SysState) (w : Nat) (id : Nat) : SysState :=
  { updTask s id (fun t => { t with status := .Downloading }) with
      workers := s.workers.set w (some (id, .run)) }

/-- The `finally` block of `_process_task`: append the task object to the
completed history and pop it from the active index (a no-op pop when
cancellation already removed it), then the worker loops back to idle. -/
def finalizeTask (s : SysState) (w : Nat) (id : Nat) : SysState :=
  { s with completed := s.completed ++ [id],
           active := s.active.erase id,
           workers := s.workers.set w none }

/-- A `downloading` progress-hook event (library strategy only): update
progress, speed and eta on the shared task object. -/
def hookProgressStep (s : SysState) (id : Nat) (p : Nat) (spd eta : String) :
    SysState :=
  updTask s id (fun t => { t with progress := p, speed := spd, eta := eta })

/-- A `finished` progress-hook event (library strategy only): status
becomes `Processing`, progress `100`, and `file_path` receives
`d.get("filename")` (possibly absent). -/
def hookFinishedStep (s : SysState) (id : Nat) (fname : Option String) : SysState :=
  updTask s id (fun t => { t with status := .Processing, progress := 100,
                                  file_path := fname })

/-- Successful end of `_process_task`'s try body: status `Completed`,
progress `100`, then the `finally` block. -/
def finishSuccessStep (s : SysState) (w : Nat) (id : Nat) : SysState :=
  finalizeTask
    (updTask s id (fun t => { t with status := .Completed, progress := 100 })) w id

/-- `_process_task` catching an ordinary exception: status `Failed`, the
message recorded in `error`, then the `finally` block. -/
def finishFailureStep (s : SysState) (w : Nat) (id : Nat) (msg : String) : SysState :=
  finalizeTask
    (updTask s id (fun t => { t with status := .Failed, error := some msg })) w id

/-- `_process_task` catching `asyncio.CancelledError`: status `Cancelled`,
then the `finally` block. -/
def finishCancelledStep (s : SysState) (w : Nat) (id : Nat) : SysState :=
  finalizeTask (updTask s id (fun t => { t with status := .Cancelled })) w id

/-- Whether any extraction strategy is available (`yt_dlp is not None` or
`self._ytdlp_binary`). -/
def hasCapability (cfg : Config) : Bool :=
  cfg.hasLib || cfg.binaryPath.isSome

/-- One interleaved step of the system: a public API call (`add_download`,
`cancel_task`), or one worker micro-step between `await` boundaries, or one
extraction-side event.  Guards on the worker slot and queue head are the
enabling conditions of the corresponding source line. -/
inductive Step : SysState → SysState → Prop
  | enqueue (s : SysState) (url download_type : String) (is_playlist : Bool)
      (quality format_type title : String) :
      Step s (addDownload s url download_type is_playlist quality format_type title).1
  | cancel (s : SysState) (id : Nat) :
      Step s (cancelTask s id).1
  | take (s : SysState) (w id : Nat)
      (hw : s.workers[w]? = some none)
      (hq : s.queue.head? = some id) :
      Step s (takeTask s w id)
  | skip (s : SysState) (w id : Nat)
      (hw : s.workers[w]? = some (some (id, .pre)))
      (hc : statusOf s id = some .Cancelled) :
      Step s (skipTask s w)
  | check (s : SysState) (w id : Nat)
      (hw : s.workers[w]? = some (some (id, .pre)))
      (hc : statusOf s id ≠ some .Cancelled) :
      Step s (checkTask s w id)
  | start (s : SysState) (w id : Nat)
      (hw : s.workers[w]? = some (some (id, .chk))) :
      Step s (startTask s w id)
  | hookProgress (s : SysState) (w id p : Nat) (spd eta : String)
      (hw : s.workers[w]? = some (some (id, .run)))
      (hlib : s.cfg.hasLib = true) :
      Step s (hookProgressStep s id p spd eta)
  | hookFinished (s : SysState) (w id : Nat) (fname : Option String)
      (hw : s.workers[w]? = some (some (id, .run)))
      (hlib : s.cfg.hasLib = true) :
      Step s (hookFinishedStep s id fname)
  | finishSuccess (s : SysState) (w id : Nat)
      (hw : s.workers[w]? = some (some (id, .run)))
      (hcap : hasCapability s.cfg = true) :
      Step s (finishSuccessStep s w id)
  | finishFailure (s : SysState) (w id : Nat) (msg : String)
      (hw : s.workers[w]? = some (some (id, .run)))
      (hcap : hasCapability s.cfg = true) :
      Step s (finishFailureStep s w id msg)
  | finishNoCap (s : SysState) (w id : Nat)
      (hw : s.workers[w]? = some (some (id, .run)))
      (hcap : hasCapability s.cfg = false) :
      Step s (finishFailureStep s w id noCapabilityMsg)
  | finishCancelled (s : SysState) (w id : Nat)
      (hw : s.workers[w]? = some (some (id, .run))) :
      Step s (finishCancelledStep s w id)

/-- States the manager can reach from startup. -/
def Reachable (cfg : Config) (s : SysState) : Prop :=
  Relation.ReflTransGen Step (initState cfg) s

/-- Number of stored tasks currently in a given status. -/
def countStatus (s : SysState) (st : Status) : Nat :=
  (s.tasks.filter (fun p => p.2.status = st)).length

/-! ## The HTTP enqueue endpoint

Embedding of the `/add-download` route of `server.py`: the URL scheme check
raises a 400 `HTTPException`; the surrounding `except Exception` clause
catches it (an `HTTPException` is an `Exception`) and re-raises it wrapped
in a 500 `HTTPException` whose detail embeds `str(e)` =
`"{status_code}: {detail}"`. -/

/-- Python `str.startswith` on one prefix: byte-prefix test. -/
def pyStartsWith (s pre : String) : Bool :=
  pre.data.isPrefixOf s.data

/-- Request schema of the `/add-download` endpoint (`DownloadRequest`). -/
structure DownloadRequest where
  url : String
  download_type : String
  is_playlist : Bool := false
  quality : String := "1080p"
  format : String := "mp4"
  title : String := "Untitled"
deriving Repr, DecidableEq

/-- Embedding of the `add_download` route handler: on a URL that does not
start with `http://` or `https://` it fails without touching the manager;
otherwise it calls `DownloadManager.add_download` and returns the fresh
task id. -/
def serverAddDownload (s : SysState) (r : DownloadRequest) :
    Except (Nat × String) (SysState × Nat) :=
  if ¬(pyStartsWith r.url "http://" ∨ pyStartsWith r.url "https://") then
    .error (500, "Error queuing download: 400: URL must start with http:// or https://")
  else
    .ok (addDownload s r.url r.download_type r.is_playlist r.quality r.format r.title)

/-! ## Concrete configurations and scenario traces -/

/-- Startup with the yt-dlp library importable. -/
def cfgLib : Config :=
  { hasLib := true, binaryPath := none, ffmpegPath := none, downloadDir := "dl" }

/-- Startup with only the yt-dlp binary available. -/
def cfgBin : Config :=
  { hasLib := false, binaryPath := some "yt-dlp", ffmpegPath := none, downloadDir := "dl" }

/-- Startup with no extraction capability at all. -/
def cfgNone : Config :=
  { hasLib := false, binaryPath := none, ffmpegPath := none, downloadDir := "dl" }

/-- Enqueue one playlist download of `"u"` (used by the scenario traces). -/
def enqN (s : SysState) : SysState :=
  (addDownload s "u" "video" true "best" "mp4" "T").1

/-- C1 trace: one task enqueued, then cancelled while still queued. -/
def c1s1 : SysState := enqN (initState cfgLib)

/-- C1 trace, final state. -/
def c1s2 : SysState := (cancelTask c1s1 0).1

/-- C2 trace: one task enqueued, dequeued, checked, started. -/
def c2s4 : SysState :=
  startTask (checkTask (takeTask (enqN (initState cfgLib)) 0 0) 0 0) 0 0

/-- C2 trace: the downloading task is cancelled. -/
def c2s5 : SysState := (cancelTask c2s4 0).1

/-- C2 trace: the worker's download then succeeds. -/
def c2s6 : SysState := finishSuccessStep c2s5 0 0

/-- C6 state: one enqueue performed with no extraction capability. -/
def c6s1 : SysState × Nat :=
  addDownload (initState cfgNone) "https://x.test/v" "video" true "best" "mp4" "T"

/-- C7 trace: binary-only configuration, one task processed to success. -/
def c7s4 : SysState :=
  startTask (checkTask (takeTask (enqN (initState cfgBin)) 0 0) 0 0) 0 0

/-- C7 trace, final state: the task completed via the binary strategy. -/
def c7s5 : SysState := finishSuccessStep c7s4 0 0

/-- C9 trace: five tasks enqueued. -/
def c9e5 : SysState := enqN (enqN (enqN (enqN (enqN (initState cfgLib)))))

/-- C9 trace: the three workers each take, check and start one task. -/
def c9sA : SysState :=
  startTask (checkTask (takeTask
    (startTask (checkTask (takeTask
      (startTask (checkTask (takeTask c9e5 0 0) 0 0) 0 0) 1 1) 1 1) 1 1) 2 2) 2 2) 2 2

/-- C9 trace: task 0 finalizes, freeing worker 0. -/
def c9f : SysState := finishSuccessStep c9sA 0 0

/-- C9 trace: the freed worker takes, checks and starts task 3. -/
def c9sB : SysState := startTask (checkTask (takeTask c9f 0 3) 0 3) 0 3

/-- The task record of the C7 trace's task after it completed via the
binary strategy. -/
def c7task : Task :=
  { url := "u", title := "T", download_type := "video", quality := "best",
    format_type := "mp4", is_playlist := true, status := .Completed, progress := 100 }

/-! ## Store lemmas -/

theorem keys_setT (l : List (Nat × Task)) (id : Nat) (f : Task → Task) :
    (setT l id f).map Prod.fst = l.map Prod.fst := by
  induction l with
  | nil => rfl
  | cons p rest ih =>
      simp only [setT, List.map_cons] at ih ⊢
      by_cases h : p.1 = id <;> simp [h, ih]

theorem lookupT_setT (l : List (Nat × Task)) (id id' : Nat) (f : Task → Task) :
    lookupT (setT l id f) id' =
      if id' = id then (lookupT l id').map f else lookupT l id' := by
  unfold lookupT setT
  rw [List.find?_map]
  have hpred :
      ((fun p : Nat × Task => p.1 == id') ∘ fun p => if p.1 = id then (p.1, f p.2) else p)
        = fun p : Nat × Task => p.1 == id' := by
    funext p
    simp only [Function.comp_apply]
    split <;> rfl
  rw [hpred]
  rcases hf : l.find? (fun p => p.1 == id') with _ | p
  · rw [hf]
    simp only [Option.map_none']
    split <;> rfl
  · rw [hf]
    have hp1 : p.1 = id' := by
      have := List.find?_some hf
      simpa [beq_iff_eq] using this
    by_cases hii : id' = id
    · subst hii
      simp [hp1]
    · have hne : ¬p.1 = id := by rw [hp1]; exact hii
      simp [hii, hne]

theorem lookupT_setT_ne {l : List (Nat × Task)} {id id₀ : Nat} (f : Task → Task)
    (hne : id ≠ id₀) : lookupT (setT l id₀ f) id = lookupT l id := by
  rw [lookupT_setT, if_neg hne]

theorem lookupT_eq_none_iff (l : List (Nat × Task)) (id : Nat) :
    lookupT l id = none ↔ id ∉ l.map Prod.fst := by
  unfold lookupT
  rcases hf : l.find? (fun p => p.1 == id) with _ | p
  · rw [hf]
    simp only [Option.map_none', true_iff]
    intro hmem
    obtain ⟨p, hp, hfst⟩ := List.mem_map.mp hmem
    have hfail := List.find?_eq_none.mp hf p hp
    simp only [beq_iff_eq] at hfail
    exact hfail hfst
  · rw [hf]
    constructor
    · intro h
      simp at h
    · intro hmem
      exfalso
      have hp := List.find?_some hf
      simp only [beq_iff_eq] at hp
      exact hmem (List.mem_map.mpr ⟨p, List.mem_of_find?_eq_some hf, hp⟩)

theorem lookupT_mem_keys {l : List (Nat × Task)} {id : Nat} {t : Task}
    (h : lookupT l id = some t) : id ∈ l.map Prod.fst := by
  by_contra hmem
  rw [← lookupT_eq_none_iff] at hmem
  simp [hmem] at h

theorem lookupT_isSome_of_mem_keys {l : List (Nat × Task)} {id : Nat}
    (h : id ∈ l.map Prod.fst) : ∃ t, lookupT l id = some t := by
  rcases ho : lookupT l id with _ | t
  · exact absurd ((lookupT_eq_none_iff l id).mp ho) (by simp [h])
  · exact ⟨t, rfl⟩

theorem lookupT_of_mem {l : List (Nat × Task)} (hnd : (l.map Prod.fst).Nodup)
    {p : Nat × Task} (hp : p ∈ l) : lookupT l p.1 = some p.2 := by
  induction l with
  | nil => cases hp
  | cons q rest ih =>
      rcases List.mem_cons.mp hp with h | h
      · subst h
        simp [lookupT, List.find?_cons]
      · have hq : (q.1 == p.1) = false := by
          refine beq_eq_false_iff_ne.mpr ?_
          intro he
          rw [List.map_cons] at hnd
          exact (List.nodup_cons.mp hnd).1 (he ▸ List.mem_map.mpr ⟨p, h, rfl⟩)
        simp only [lookupT, List.find?_cons, hq]
        exact ih (List.nodup_cons.mp (by rw [List.map_cons] at hnd; exact hnd)).2 h

theorem lookupT_append_fresh {l : List (Nat × Task)} {id : Nat} (t : Task)
    (h : id ∉ l.map Prod.fst) :
    lookupT (l ++ [(id, t)]) id = some t := by
  have hn : l.find? (fun p => p.1 == id) = none := by
    apply List.find?_eq_none.mpr
    intro p hp
    simp only [beq_iff_eq]
    intro hfst
    exact h (List.mem_map.mpr ⟨p, hp, hfst⟩)
  unfold lookupT
  rw [List.find?_append, hn, Option.none_or, List.find?_singleton]
  simp

theorem lookupT_append_old {l : List (Nat × Task)} {id id' : Nat} (t : Task)
    (h : id' ≠ id) :
    lookupT (l ++ [(id, t)]) id' = lookupT l id' := by
  unfold lookupT
  rw [List.find?_append, List.find?_singleton]
  have hb : ((id, t).1 == id') = false := beq_eq_false_iff_ne.mpr (Ne.symm h)
  rw [hb]
  simp

/-! ## Worker-slot views -/

/-- Worker `w` currently holds task `id` (in any phase). -/
def holds (s : SysState) (w id : Nat) : Prop :=
  ∃ ph, s.workers[w]? = some (some (id, ph))

/-- Worker `w` is inside `_process_task` for task `id`. -/
def holdsRun (s : SysState) (w id : Nat) : Prop :=
  s.workers[w]? = some (some (id, .run))

/-- Ids of the tasks currently in `Downloading` or `Processing` state. -/
def dpIds (s : SysState) : List Nat :=
  (s.tasks.filter (fun p => p.2.status = .Downloading ∨ p.2.status = .Processing)).map
    Prod.fst

theorem getTask_updTask (s : SysState) (id id' : Nat) (f : Task → Task) :
    getTask (updTask s id f) id' =
      if id' = id then (getTask s id').map f else getTask s id' :=
  lookupT_setT s.tasks id id' f

/-! ## The scheduler invariant

Everything the checked properties need about reachable states, bundled so
that one induction over `Step` establishes all of it. -/

structure Inv (s : SysState) : Prop where
  keysNodup : (s.tasks.map Prod.fst).Nodup
  idsLt : ∀ id ∈ s.tasks.map Prod.fst, id < s.nextId
  activeKeys : ∀ id ∈ s.active, id ∈ s.tasks.map Prod.fst
  queueKeys : ∀ id ∈ s.queue, id ∈ s.tasks.map Prod.fst
  completedKeys : ∀ id ∈ s.completed, id ∈ s.tasks.map Prod.fst
  heldKeys : ∀ (w id : Nat) (ph : WPhase), s.workers[w]? = some (some (id, ph)) →
      id ∈ s.tasks.map Prod.fst
  activeNodup : s.active.Nodup
  queueSorted : s.queue.Pairwise (· < ·)
  completedNodup : s.completed.Nodup
  heldUnique : ∀ (w₁ w₂ id : Nat) (ph₁ ph₂ : WPhase), s.workers[w₁]? = some (some (id, ph₁)) →
      s.workers[w₂]? = some (some (id, ph₂)) → w₁ = w₂
  queueHeld : ∀ id ∈ s.queue, ∀ (w : Nat) (ph : WPhase), s.workers[w]? ≠ some (some (id, ph))
  queueCompleted : ∀ id ∈ s.queue, id ∉ s.completed
  heldCompleted : ∀ (w id : Nat) (ph : WPhase), s.workers[w]? = some (some (id, ph)) →
      id ∉ s.completed
  activeCompleted : ∀ id ∈ s.active, id ∉ s.completed
  workersLen : s.workers.length = MAX_CONCURRENT
  activeNonterminal : ∀ id t, getTask s id = some t → id ∈ s.active →
      t.status.isTerminal = false
  queuedStatus : ∀ id t, getTask s id = some t → id ∈ s.queue →
      t.status = .Queued ∨ t.status = .Cancelled
  heldPreStatus : ∀ (w id : Nat) (ph : WPhase) (t : Task), s.workers[w]? = some (some (id, ph)) → ph ≠ .run →
      getTask s id = some t → t.status = .Queued ∨ t.status = .Cancelled
  heldRunStatus : ∀ (w id : Nat) (t : Task), s.workers[w]? = some (some (id, WPhase.run)) →
      getTask s id = some t →
      t.status = .Downloading ∨ t.status = .Processing ∨ t.status = .Cancelled
  dpHeld : ∀ id t, getTask s id = some t →
      t.status = .Downloading ∨ t.status = .Processing →
      ∃ w : Nat, s.workers[w]? = some (some (id, WPhase.run))
  completedTerminal : ∀ id t, getTask s id = some t → id ∈ s.completed →
      t.status.isTerminal = true
  terminalPlaced : ∀ id t, getTask s id = some t → t.status.isTerminal = true →
      id ∈ s.completed ∨ t.status = .Cancelled
  errorIffFailed : ∀ id t, getTask s id = some t →
      (t.error.isSome = true ↔ t.status = .Failed)
  filePathLib : ∀ id t, getTask s id = some t → t.file_path.isSome = true →
      s.cfg.hasLib = true
  noCapNone : hasCapability s.cfg = false → ∀ id t, getTask s id = some t →
      t.status ≠ .Completed ∧ t.status ≠ .Processing ∧
        (t.error.isSome = true → t.error = some noCapabilityMsg)

theorem getElem?_mem_of_eq_some {α : Type} {l : List α} {n : Nat} {a : α}
    (h : l[n]? = some a) : a ∈ l := by
  obtain ⟨hlt, rfl⟩ := List.getElem?_eq_some_iff.mp h
  exact List.getElem_mem hlt

theorem idleWorkers_no_some {w : Nat} {x : Nat × WPhase} :
    ¬ (([none, none, none] : List (Option (Nat × WPhase)))[w]? = some (some x)) := by
  intro h
  have hmem := getElem?_mem_of_eq_some h
  simp at hmem

theorem inv_init (cfg : Config) : Inv (initState cfg) := by
  constructor <;>
    (intros <;>
      (try simp_all [initState, getTask, lookupT, MAX_CONCURRENT,
        idleWorkers_no_some]))

/-! ## Invariant preservation, one lemma per step shape -/

theorem getElem?_set_cases {α : Type} {l : List α} {w v : Nat} {x y : α}
    (h : (l.set w x)[v]? = some y) :
    (v = w ∧ y = x) ∨ (v ≠ w ∧ l[v]? = some y) := by
  rw [List.getElem?_set] at h
  split at h
  · next heq =>
      split at h
      · exact Or.inl ⟨heq.symm, (Option.some.inj h).symm⟩
      · cases h
  · next hne => exact Or.inr ⟨fun hh => hne hh.symm, h⟩

theorem queue_head_decomp {l : List Nat} {id : Nat} (h : l.head? = some id) :
    l = id :: l.tail := by
  cases l with
  | nil => cases h
  | cons a t =>
      have : a = id := Option.some.inj h
      simp [this]

theorem inv_addTask (s : SysState) (t0 : Task) (h0 : t0.status = .Queued)
    (h1 : t0.error = none) (h2 : t0.file_path = none) (hI : Inv s) :
    Inv { s with tasks := s.tasks ++ [(s.nextId, t0)],
                 active := s.active ++ [s.nextId],
                 queue := s.queue ++ [s.nextId],
                 nextId := s.nextId + 1 } := by
  have hfresh : s.nextId ∉ s.tasks.map Prod.fst :=
    fun hmem => absurd (hI.idsLt _ hmem) (lt_irrefl _)
  have hget : ∀ id : Nat,
      lookupT (s.tasks ++ [(s.nextId, t0)]) id
        = if id = s.nextId then some t0 else lookupT s.tasks id := by
    intro id
    by_cases h : id = s.nextId
    · subst h
      rw [lookupT_append_fresh _ hfresh]
      simp
    · rw [lookupT_append_old _ h]
      simp [h]
  have hkeyLt : ∀ id ∈ s.tasks.map Prod.fst, id ≠ s.nextId :=
    fun id hmem => Nat.ne_of_lt (hI.idsLt _ hmem)
  constructor
  case keysNodup =>
      simp only [List.map_append, List.map_cons, List.map_nil]
      rw [List.nodup_append]
      exact ⟨hI.keysNodup, List.nodup_singleton _,
        fun a ha hb => (hkeyLt a ha) (by simpa using hb)⟩
  case idsLt =>
      intro id hmem
      simp only [List.map_append, List.map_cons, List.map_nil, List.mem_append,
        List.mem_singleton] at hmem
      rcases hmem with h | h
      · exact Nat.lt_succ_of_lt (hI.idsLt _ h)
      · simp [h]
  case activeKeys =>
      intro id hmem
      simp only [List.mem_append, List.mem_singleton] at hmem ⊢
      simp only [List.map_append, List.map_cons, List.map_nil, List.mem_append,
        List.mem_singleton]
      rcases hmem with h | h
      · exact Or.inl (hI.activeKeys _ h)
      · exact Or.inr h
  case queueKeys =>
      intro id hmem
      simp only [List.mem_append, List.mem_singleton] at hmem
      simp only [List.map_append, List.map_cons, List.map_nil, List.mem_append,
        List.mem_singleton]
      rcases hmem with h | h
      · exact Or.inl (hI.queueKeys _ h)
      · exact Or.inr h
  case completedKeys =>
      intro id hmem
      simp only [List.map_append, List.map_cons, List.map_nil, List.mem_append,
        List.mem_singleton]
      exact Or.inl (hI.completedKeys _ hmem)
  case heldKeys =>
      intro w id ph hw
      simp only [List.map_append, List.map_cons, List.map_nil, List.mem_append,
        List.mem_singleton]
      exact Or.inl (hI.heldKeys _ _ _ hw)
  case activeNodup =>
      rw [List.nodup_append]
      refine ⟨hI.activeNodup, List.nodup_singleton _, ?_⟩
      intro a ha hb
      have : a = s.nextId := by simpa using hb
      exact hkeyLt a (hI.activeKeys _ ha) this
  case queueSorted =>
      rw [List.pairwise_append]
      refine ⟨hI.queueSorted, List.pairwise_singleton _ _, ?_⟩
      intro a ha b hb
      have hb' : b = s.nextId := by simpa using hb
      subst hb'
      exact hI.idsLt _ (hI.queueKeys _ ha)
  case completedNodup => exact hI.completedNodup
  case heldUnique => exact hI.heldUnique
  case queueHeld =>
      intro id hmem w ph hw
      simp only [List.mem_append, List.mem_singleton] at hmem
      rcases hmem with h | h
      · exact hI.queueHeld _ h w ph hw
      · subst h
        exact hkeyLt _ (hI.heldKeys _ _ _ hw) rfl
  case queueCompleted =>
      intro id hmem
      simp only [List.mem_append, List.mem_singleton] at hmem
      rcases hmem with h | h
      · exact hI.queueCompleted _ h
      · subst h
        exact fun hc => hkeyLt _ (hI.completedKeys _ hc) rfl
  case heldCompleted =>
      intro w id ph hw
      exact hI.heldCompleted _ _ _ hw
  case activeCompleted =>
      intro id hmem
      simp only [List.mem_append, List.mem_singleton] at hmem
      rcases hmem with h | h
      · exact hI.activeCompleted _ h
      · subst h
        exact fun hc => hkeyLt _ (hI.completedKeys _ hc) rfl
  case workersLen => exact hI.workersLen
  case activeNonterminal =>
      intro id t hg hmem
      simp only [getTask] at hg
      rw [hget] at hg
      simp only [List.mem_append, List.mem_singleton] at hmem
      by_cases h : id = s.nextId
      · rw [if_pos h] at hg
        cases Option.some.inj hg
        simp [h0, Status.isTerminal]
      · rw [if_neg h] at hg
        rcases hmem with hm | hm
        · exact hI.activeNonterminal _ _ hg hm
        · exact absurd hm h
  case queuedStatus =>
      intro id t hg hmem
      simp only [getTask] at hg
      rw [hget] at hg
      simp only [List.mem_append, List.mem_singleton] at hmem
      by_cases h : id = s.nextId
      · rw [if_pos h] at hg
        cases Option.some.inj hg
        exact Or.inl h0
      · rw [if_neg h] at hg
        rcases hmem with hm | hm
        · exact hI.queuedStatus _ _ hg hm
        · exact absurd hm h
  case heldPreStatus =>
      intro w id ph t hw hph hg
      simp only [getTask] at hg
      rw [hget] at hg
      have h : id ≠ s.nextId := hkeyLt _ (hI.heldKeys _ _ _ hw)
      rw [if_neg h] at hg
      exact hI.heldPreStatus _ _ _ _ hw hph hg
  case heldRunStatus =>
      intro w id t hw hg
      simp only [getTask] at hg
      rw [hget] at hg
      have h : id ≠ s.nextId := hkeyLt _ (hI.heldKeys _ _ _ hw)
      rw [if_neg h] at hg
      exact hI.heldRunStatus _ _ _ hw hg
  case dpHeld =>
      intro id t hg hdp
      simp only [getTask] at hg
      rw [hget] at hg
      by_cases h : id = s.nextId
      · rw [if_pos h] at hg
        cases Option.some.inj hg
        rw [h0] at hdp
        rcases hdp with h' | h' <;> cases h'
      · rw [if_neg h] at hg
        exact hI.dpHeld _ _ hg hdp
  case completedTerminal =>
      intro id t hg hmem
      simp only [getTask] at hg
      rw [hget] at hg
      have h : id ≠ s.nextId := hkeyLt _ (hI.completedKeys _ hmem)
      rw [if_neg h] at hg
      exact hI.completedTerminal _ _ hg hmem
  case terminalPlaced =>
      intro id t hg hterm
      simp only [getTask] at hg
      rw [hget] at hg
      by_cases h : id = s.nextId
      · rw [if_pos h] at hg
        cases Option.some.inj hg
        rw [h0] at hterm
        cases hterm
      · rw [if_neg h] at hg
        exact hI.terminalPlaced _ _ hg hterm
  case errorIffFailed =>
      intro id t hg
      simp only [getTask] at hg
      rw [hget] at hg
      by_cases h : id = s.nextId
      · rw [if_pos h] at hg
        cases Option.some.inj hg
        simp [h0, h1]
      · rw [if_neg h] at hg
        exact hI.errorIffFailed _ _ hg
  case filePathLib =>
      intro id t hg hfp
      simp only [getTask] at hg
      rw [hget] at hg
      by_cases h : id = s.nextId
      · rw [if_pos h] at hg
        cases Option.some.inj hg
        rw [h2] at hfp
        cases hfp
      · rw [if_neg h] at hg
        exact hI.filePathLib _ _ hg hfp
  case noCapNone =>
      intro hcap id t hg
      simp only [getTask] at hg
      rw [hget] at hg
      by_cases h : id = s.nextId
      · rw [if_pos h] at hg
        cases Option.some.inj hg
        refine ⟨?_, ?_, ?_⟩
        · rw [h0]
          intro hh
          cases hh
        · rw [h0]
          intro hh
          cases hh
        · rw [h1]
          intro hh
          cases hh
      · rw [if_neg h] at hg
        exact hI.noCapNone hcap _ _ hg

theorem inv_enqueue (s : SysState) (url download_type : String) (is_playlist : Bool)
    (quality format_type title : String) (hI : Inv s) :
    Inv (addDownload s url download_type is_playlist quality format_type title).1 :=
  inv_addTask s _ rfl rfl rfl hI

theorem inv_cancelCore (s : SysState) (id : Nat) (hmem : id ∈ s.active) (hI : Inv s) :
    Inv { updTask s id (fun t => { t with status := .Cancelled }) with
            active := s.active.erase id } := by
  have hget : ∀ id' : Nat,
      lookupT (setT s.tasks id (fun t => { t with status := Status.Cancelled })) id'
        = if id' = id then
            (lookupT s.tasks id').map (fun t => { t with status := Status.Cancelled })
          else lookupT s.tasks id' :=
    fun id' => lookupT_setT s.tasks id id' _
  obtain ⟨told, htold⟩ := lookupT_isSome_of_mem_keys (hI.activeKeys _ hmem)
  have htoldNT : told.status.isTerminal = false := hI.activeNonterminal _ _ htold hmem
  have htoldErr : told.error = none := by
    rcases he : told.error with _ | e
    · rfl
    · have : told.status = .Failed := (hI.errorIffFailed _ _ htold).mp (by simp [he])
      rw [this] at htoldNT
      cases htoldNT
  constructor
  case keysNodup => simpa [updTask, keys_setT] using hI.keysNodup
  case idsLt => simpa [updTask, keys_setT] using hI.idsLt
  case activeKeys =>
      intro id' hm
      simpa [updTask, keys_setT] using
        hI.activeKeys id' (List.erase_subset id s.active hm)
  case queueKeys =>
      intro id' hm
      simpa [updTask, keys_setT] using hI.queueKeys _ hm
  case completedKeys =>
      intro id' hm
      simpa [updTask, keys_setT] using hI.completedKeys _ hm
  case heldKeys =>
      intro w id' ph hw
      simpa [updTask, keys_setT] using hI.heldKeys _ _ _ hw
  case activeNodup => exact hI.activeNodup.erase _
  case queueSorted => exact hI.queueSorted
  case completedNodup => exact hI.completedNodup
  case heldUnique => exact hI.heldUnique
  case queueHeld => exact hI.queueHeld
  case queueCompleted => exact hI.queueCompleted
  case heldCompleted => exact hI.heldCompleted
  case activeCompleted =>
      intro id' hm
      exact hI.activeCompleted id' (List.erase_subset id s.active hm)
  case workersLen => exact hI.workersLen
  case activeNonterminal =>
      intro id' t hg hm
      have hm' := (hI.activeNodup.mem_erase_iff).mp hm
      simp only [getTask, updTask] at hg
      rw [hget, if_neg hm'.1] at hg
      exact hI.activeNonterminal _ _ hg hm'.2
  case queuedStatus =>
      intro id' t hg hm
      simp only [getTask, updTask] at hg
      rw [hget] at hg
      by_cases h : id' = id
      · rw [if_pos h] at hg
        rcases hlk : lookupT s.tasks id' with _ | t' <;> rw [hlk] at hg
        · cases hg
        · cases Option.some.inj hg
          exact Or.inr rfl
      · rw [if_neg h] at hg
        exact hI.queuedStatus _ _ hg hm
  case heldPreStatus =>
      intro w id' ph t hw hph hg
      simp only [getTask, updTask] at hg
      rw [hget] at hg
      by_cases h : id' = id
      · rw [if_pos h] at hg
        rcases hlk : lookupT s.tasks id' with _ | t' <;> rw [hlk] at hg
        · cases hg
        · cases Option.some.inj hg
          exact Or.inr rfl
      · rw [if_neg h] at hg
        exact hI.heldPreStatus _ _ _ _ hw hph hg
  case heldRunStatus =>
      intro w id' t hw hg
      simp only [getTask, updTask] at hg
      rw [hget] at hg
      by_cases h : id' = id
      · rw [if_pos h] at hg
        rcases hlk : lookupT s.tasks id' with _ | t' <;> rw [hlk] at hg
        · cases hg
        · cases Option.some.inj hg
          exact Or.inr (Or.inr rfl)
      · rw [if_neg h] at hg
        exact hI.heldRunStatus _ _ _ hw hg
  case dpHeld =>
      intro id' t hg hdp
      simp only [getTask, updTask] at hg
      rw [hget] at hg
      by_cases h : id' = id
      · rw [if_pos h] at hg
        rcases hlk : lookupT s.tasks id' with _ | t' <;> rw [hlk] at hg
        · cases hg
        · cases Option.some.inj hg
          rcases hdp with h' | h' <;> cases h'
      · rw [if_neg h] at hg
        exact hI.dpHeld _ _ hg hdp
  case completedTerminal =>
      intro id' t hg hm
      simp only [getTask, updTask] at hg
      rw [hget] at hg
      by_cases h : id' = id
      · subst h
        exact absurd hm (hI.activeCompleted _ hmem)
      · rw [if_neg h] at hg
        exact hI.completedTerminal _ _ hg hm
  case terminalPlaced =>
      intro id' t hg hterm
      simp only [getTask, updTask] at hg
      rw [hget] at hg
      by_cases h : id' = id
      · rw [if_pos h] at hg
        rcases hlk : lookupT s.tasks id' with _ | t' <;> rw [hlk] at hg
        · cases hg
        · cases Option.some.inj hg
          exact Or.inr rfl
      · rw [if_neg h] at hg
        exact hI.terminalPlaced _ _ hg hterm
  case errorIffFailed =>
      intro id' t hg
      simp only [getTask, updTask] at hg
      rw [hget] at hg
      by_cases h : id' = id
      · subst h
        rw [if_pos rfl, htold] at hg
        simp only [Option.map_some'] at hg
        cases Option.some.inj hg
        simp [htoldErr]
      · rw [if_neg h] at hg
        exact hI.errorIffFailed _ _ hg
  case filePathLib =>
      intro id' t hg hfp
      simp only [getTask, updTask] at hg
      rw [hget] at hg
      by_cases h : id' = id
      · rw [if_pos h] at hg
        rcases hlk : lookupT s.tasks id' with _ | t' <;> rw [hlk] at hg
        · cases hg
        · cases Option.some.inj hg
          exact hI.filePathLib _ _ hlk hfp
      · rw [if_neg h] at hg
        exact hI.filePathLib _ _ hg hfp
  case noCapNone =>
      intro hcap id' t hg
      simp only [getTask, updTask] at hg
      rw [hget] at hg
      by_cases h : id' = id
      · rw [if_pos h] at hg
        rcases hlk : lookupT s.tasks id' with _ | t' <;> rw [hlk] at hg
        · cases hg
        · cases Option.some.inj hg
          refine ⟨?_, ?_, ?_⟩
          · intro hh
            cases hh
          · intro hh
            cases hh
          · exact (hI.noCapNone hcap _ _ hlk).2.2
      · rw [if_neg h] at hg
        exact hI.noCapNone hcap _ _ hg

theorem lt_length_of_getElem? {α : Type} {l : List α} {w : Nat} {y : α}
    (h : l[w]? = some y) : w < l.length :=
  (List.getElem?_eq_some_iff.mp h).1

theorem getElem?_set_self_of_lt {α : Type} {l : List α} {w : Nat} (x : α)
    (h : w < l.length) : (l.set w x)[w]? = some x := by
  rw [List.getElem?_set]
  simp [h]

theorem inv_take (s : SysState) (w id : Nat)
    (hw : s.workers[w]? = some none) (hq : s.queue.head? = some id)
    (hI : Inv s) : Inv (takeTask s w id) := by
  have hdec : s.queue = id :: s.queue.tail := queue_head_decomp hq
  have hqmem : id ∈ s.queue := by rw [hdec]; exact List.mem_cons_self _ _
  have hwlt : w < s.workers.length := lt_length_of_getElem? hw
  have htail : ∀ id' ∈ s.queue.tail, id' ∈ s.queue := by
    intro id' h
    rw [hdec]
    exact List.mem_cons_of_mem _ h
  have htailLt : ∀ id' ∈ s.queue.tail, id < id' := by
    have := hI.queueSorted
    rw [hdec, List.pairwise_cons] at this
    exact this.1
  have hnotHeld : ∀ (v : Nat) (ph : WPhase), s.workers[v]? ≠ some (some (id, ph)) :=
    hI.queueHeld _ hqmem
  constructor
  case keysNodup => exact hI.keysNodup
  case idsLt => exact hI.idsLt
  case activeKeys => exact hI.activeKeys
  case queueKeys => exact fun id' h => hI.queueKeys _ (htail _ h)
  case completedKeys => exact hI.completedKeys
  case heldKeys =>
      intro v id' ph hv
      rcases getElem?_set_cases hv with ⟨_, hx⟩ | ⟨_, hold⟩
      · cases Option.some.inj hx
        exact hI.queueKeys _ hqmem
      · exact hI.heldKeys _ _ _ hold
  case activeNodup => exact hI.activeNodup
  case queueSorted =>
      have := hI.queueSorted
      rw [hdec, List.pairwise_cons] at this
      exact this.2
  case completedNodup => exact hI.completedNodup
  case heldUnique =>
      intro v₁ v₂ id' ph₁ ph₂ h₁ h₂
      rcases getElem?_set_cases h₁ with ⟨he₁, hx₁⟩ | ⟨hn₁, hold₁⟩ <;>
        rcases getElem?_set_cases h₂ with ⟨he₂, hx₂⟩ | ⟨hn₂, hold₂⟩
      · rw [he₁, he₂]
      · cases Option.some.inj hx₁
        exact absurd hold₂ (hnotHeld _ _)
      · cases Option.some.inj hx₂
        exact absurd hold₁ (hnotHeld _ _)
      · exact hI.heldUnique _ _ _ _ _ hold₁ hold₂
  case queueHeld =>
      intro id' hm v ph hv
      rcases getElem?_set_cases hv with ⟨_, hx⟩ | ⟨_, hold⟩
      · cases Option.some.inj hx
        exact absurd rfl (Nat.ne_of_lt (htailLt _ hm)).symm
      · exact hI.queueHeld _ (htail _ hm) _ _ hold
  case queueCompleted => exact fun id' h => hI.queueCompleted _ (htail _ h)
  case heldCompleted =>
      intro v id' ph hv
      rcases getElem?_set_cases hv with ⟨_, hx⟩ | ⟨_, hold⟩
      · cases Option.some.inj hx
        exact hI.queueCompleted _ hqmem
      · exact hI.heldCompleted _ _ _ hold
  case activeCompleted => exact hI.activeCompleted
  case workersLen =>
      rw [show (takeTask s w id).workers = s.workers.set w (some (id, WPhase.pre)) from rfl,
        List.length_set]
      exact hI.workersLen
  case activeNonterminal => exact hI.activeNonterminal
  case queuedStatus => exact fun id' t hg h => hI.queuedStatus _ _ hg (htail _ h)
  case heldPreStatus =>
      intro v id' ph t hv hph hg
      rcases getElem?_set_cases hv with ⟨_, hx⟩ | ⟨_, hold⟩
      · cases Option.some.inj hx
        exact hI.queuedStatus _ _ hg hqmem
      · exact hI.heldPreStatus _ _ _ _ hold hph hg
  case heldRunStatus =>
      intro v id' t hv hg
      rcases getElem?_set_cases hv with ⟨_, hx⟩ | ⟨_, hold⟩
      · cases Option.some.inj hx
      · exact hI.heldRunStatus _ _ _ hold hg
  case dpHeld =>
      intro id' t hg hdp
      obtain ⟨v, hv⟩ := hI.dpHeld _ _ hg hdp
      have hvw : v ≠ w := by
        intro he
        rw [he, hw] at hv
        cases Option.some.inj hv
      refine ⟨v, ?_⟩
      rw [show (takeTask s w id).workers = s.workers.set w (some (id, WPhase.pre)) from rfl,
        List.getElem?_set_ne (Ne.symm hvw)]
      exact hv
  case completedTerminal => exact hI.completedTerminal
  case terminalPlaced => exact hI.terminalPlaced
  case errorIffFailed => exact hI.errorIffFailed
  case filePathLib => exact hI.filePathLib
  case noCapNone => exact hI.noCapNone

theorem inv_skip (s : SysState) (w id : Nat)
    (hw : s.workers[w]? = some (some (id, WPhase.pre)))
    (hI : Inv s) : Inv (skipTask s w) := by
  constructor
  case keysNodup => exact hI.keysNodup
  case idsLt => exact hI.idsLt
  case activeKeys => exact hI.activeKeys
  case queueKeys => exact hI.queueKeys
  case completedKeys => exact hI.completedKeys
  case heldKeys =>
      intro v id' ph hv
      rcases getElem?_set_cases hv with ⟨_, hx⟩ | ⟨_, hold⟩
      · cases hx
      · exact hI.heldKeys _ _ _ hold
  case activeNodup => exact hI.activeNodup
  case queueSorted => exact hI.queueSorted
  case completedNodup => exact hI.completedNodup
  case heldUnique =>
      intro v₁ v₂ id' ph₁ ph₂ h₁ h₂
      rcases getElem?_set_cases h₁ with ⟨_, hx₁⟩ | ⟨_, hold₁⟩
      · cases hx₁
      rcases getElem?_set_cases h₂ with ⟨_, hx₂⟩ | ⟨_, hold₂⟩
      · cases hx₂
      exact hI.heldUnique _ _ _ _ _ hold₁ hold₂
  case queueHeld =>
      intro id' hm v ph hv
      rcases getElem?_set_cases hv with ⟨_, hx⟩ | ⟨_, hold⟩
      · cases hx
      · exact hI.queueHeld _ hm _ _ hold
  case queueCompleted => exact hI.queueCompleted
  case heldCompleted =>
      intro v id' ph hv
      rcases getElem?_set_cases hv with ⟨_, hx⟩ | ⟨_, hold⟩
      · cases hx
      · exact hI.heldCompleted _ _ _ hold
  case activeCompleted => exact hI.activeCompleted
  case workersLen =>
      rw [show (skipTask s w).workers = s.workers.set w none from rfl, List.length_set]
      exact hI.workersLen
  case activeNonterminal => exact hI.activeNonterminal
  case queuedStatus => exact hI.queuedStatus
  case heldPreStatus =>
      intro v id' ph t hv hph hg
      rcases getElem?_set_cases hv with ⟨_, hx⟩ | ⟨_, hold⟩
      · cases hx
      · exact hI.heldPreStatus _ _ _ _ hold hph hg
  case heldRunStatus =>
      intro v id' t hv hg
      rcases getElem?_set_cases hv with ⟨_, hx⟩ | ⟨_, hold⟩
      · cases hx
      · exact hI.heldRunStatus _ _ _ hold hg
  case dpHeld =>
      intro id' t hg hdp
      obtain ⟨v, hv⟩ := hI.dpHeld _ _ hg hdp
      have hvw : v ≠ w := by
        intro he
        rw [he, hw] at hv
        cases Option.some.inj (Option.some.inj hv)
      refine ⟨v, ?_⟩
      rw [show (skipTask s w).workers = s.workers.set w none from rfl,
        List.getElem?_set_ne (Ne.symm hvw)]
      exact hv
  case completedTerminal => exact hI.completedTerminal
  case terminalPlaced => exact hI.terminalPlaced
  case errorIffFailed => exact hI.errorIffFailed
  case filePathLib => exact hI.filePathLib
  case noCapNone => exact hI.noCapNone

theorem inv_check (s : SysState) (w id : Nat)
    (hw : s.workers[w]? = some (some (id, WPhase.pre)))
    (hI : Inv s) : Inv (checkTask s w id) := by
  constructor
  case keysNodup => exact hI.keysNodup
  case idsLt => exact hI.idsLt
  case activeKeys => exact hI.activeKeys
  case queueKeys => exact hI.queueKeys
  case completedKeys => exact hI.completedKeys
  case heldKeys =>
      intro v id' ph hv
      rcases getElem?_set_cases hv with ⟨_, hx⟩ | ⟨_, hold⟩
      · cases Option.some.inj hx
        exact hI.heldKeys _ _ _ hw
      · exact hI.heldKeys _ _ _ hold
  case activeNodup => exact hI.activeNodup
  case queueSorted => exact hI.queueSorted
  case completedNodup => exact hI.completedNodup
  case heldUnique =>
      intro v₁ v₂ id' ph₁ ph₂ h₁ h₂
      rcases getElem?_set_cases h₁ with ⟨he₁, hx₁⟩ | ⟨hn₁, hold₁⟩ <;>
        rcases getElem?_set_cases h₂ with ⟨he₂, hx₂⟩ | ⟨hn₂, hold₂⟩
      · rw [he₁, he₂]
      · cases Option.some.inj hx₁
        rw [he₁]
        exact (hI.heldUnique _ _ _ _ _ hold₂ hw).symm ▸ rfl
      · cases Option.some.inj hx₂
        rw [he₂]
        exact hI.heldUnique _ _ _ _ _ hold₁ hw
      · exact hI.heldUnique _ _ _ _ _ hold₁ hold₂
  case queueHeld =>
      intro id' hm v ph hv
      rcases getElem?_set_cases hv with ⟨_, hx⟩ | ⟨_, hold⟩
      · cases Option.some.inj hx
        exact hI.queueHeld _ hm _ _ hw
      · exact hI.queueHeld _ hm _ _ hold
  case queueCompleted => exact hI.queueCompleted
  case heldCompleted =>
      intro v id' ph hv
      rcases getElem?_set_cases hv with ⟨_, hx⟩ | ⟨_, hold⟩
      · cases Option.some.inj hx
        exact hI.heldCompleted _ _ _ hw
      · exact hI.heldCompleted _ _ _ hold
  case activeCompleted => exact hI.activeCompleted
  case workersLen =>
      rw [show (checkTask s w id).workers = s.workers.set w (some (id, WPhase.chk)) from rfl,
        List.length_set]
      exact hI.workersLen
  case activeNonterminal => exact hI.activeNonterminal
  case queuedStatus => exact hI.queuedStatus
  case heldPreStatus =>
      intro v id' ph t hv hph hg
      rcases getElem?_set_cases hv with ⟨_, hx⟩ | ⟨_, hold⟩
      · cases Option.some.inj hx
        exact hI.heldPreStatus _ _ _ _ hw (by intro hh; cases hh) hg
      · exact hI.heldPreStatus _ _ _ _ hold hph hg
  case heldRunStatus =>
      intro v id' t hv hg
      rcases getElem?_set_cases hv with ⟨_, hx⟩ | ⟨_, hold⟩
      · cases Option.some.inj hx
      · exact hI.heldRunStatus _ _ _ hold hg
  case dpHeld =>
      intro id' t hg hdp
      obtain ⟨v, hv⟩ := hI.dpHeld _ _ hg hdp
      have hvw : v ≠ w := by
        intro he
        rw [he, hw] at hv
        cases Option.some.inj (Option.some.inj hv)
      refine ⟨v, ?_⟩
      rw [show (checkTask s w id).workers = s.workers.set w (some (id, WPhase.chk)) from rfl,
        List.getElem?_set_ne (Ne.symm hvw)]
      exact hv
  case completedTerminal => exact hI.completedTerminal
  case terminalPlaced => exact hI.terminalPlaced
  case errorIffFailed => exact hI.errorIffFailed
  case filePathLib => exact hI.filePathLib
  case noCapNone => exact hI.noCapNone

theorem inv_start (s : SysState) (w id : Nat)
    (hw : s.workers[w]? = some (some (id, WPhase.chk)))
    (hI : Inv s) : Inv (startTask s w id) := by
  have hwlt : w < s.workers.length := lt_length_of_getElem? hw
  have hget : ∀ id' : Nat,
      lookupT (setT s.tasks id (fun t => { t with status := Status.Downloading })) id'
        = if id' = id then
            (lookupT s.tasks id').map (fun t => { t with status := Status.Downloading })
          else lookupT s.tasks id' :=
    fun id' => lookupT_setT s.tasks id id' _
  have hnq : id ∉ s.queue := fun hm => hI.queueHeld _ hm w _ hw
  have hnc : id ∉ s.completed := hI.heldCompleted _ _ _ hw
  obtain ⟨told, htold⟩ := lookupT_isSome_of_mem_keys (hI.heldKeys _ _ _ hw)
  have htoldQC : told.status = .Queued ∨ told.status = .Cancelled :=
    hI.heldPreStatus _ _ _ _ hw (by intro hh; cases hh) htold
  have htoldErr : told.error = none := by
    rcases he : told.error with _ | e
    · rfl
    · have hf : told.status = .Failed := (hI.errorIffFailed _ _ htold).mp (by simp [he])
      rcases htoldQC with h' | h' <;> rw [hf] at h' <;> cases h'
  have hself : (startTask s w id).workers[w]? = some (some (id, WPhase.run)) := by
    rw [show (startTask s w id).workers = s.workers.set w (some (id, WPhase.run)) from rfl]
    exact getElem?_set_self_of_lt _ hwlt
  constructor
  case keysNodup => simpa [startTask, updTask, keys_setT] using hI.keysNodup
  case idsLt => simpa [startTask, updTask, keys_setT] using hI.idsLt
  case activeKeys =>
      intro id' hm
      simpa [startTask, updTask, keys_setT] using hI.activeKeys _ hm
  case queueKeys =>
      intro id' hm
      simpa [startTask, updTask, keys_setT] using hI.queueKeys _ hm
  case completedKeys =>
      intro id' hm
      simpa [startTask, updTask, keys_setT] using hI.completedKeys _ hm
  case heldKeys =>
      intro v id' ph hv
      rcases getElem?_set_cases hv with ⟨_, hx⟩ | ⟨_, hold⟩
      · cases Option.some.inj hx
        simpa [startTask, updTask, keys_setT] using hI.heldKeys _ _ _ hw
      · simpa [startTask, updTask, keys_setT] using hI.heldKeys _ _ _ hold
  case activeNodup => exact hI.activeNodup
  case queueSorted => exact hI.queueSorted
  case completedNodup => exact hI.completedNodup
  case heldUnique =>
      intro v₁ v₂ id' ph₁ ph₂ h₁ h₂
      rcases getElem?_set_cases h₁ with ⟨he₁, hx₁⟩ | ⟨hn₁, hold₁⟩ <;>
        rcases getElem?_set_cases h₂ with ⟨he₂, hx₂⟩ | ⟨hn₂, hold₂⟩
      · rw [he₁, he₂]
      · cases Option.some.inj hx₁
        rw [he₁]
        exact (hI.heldUnique _ _ _ _ _ hold₂ hw).symm ▸ rfl
      · cases Option.some.inj hx₂
        rw [he₂]
        exact hI.heldUnique _ _ _ _ _ hold₁ hw
      · exact hI.heldUnique _ _ _ _ _ hold₁ hold₂
  case queueHeld =>
      intro id' hm v ph hv
      rcases getElem?_set_cases hv with ⟨_, hx⟩ | ⟨_, hold⟩
      · cases Option.some.inj hx
        exact hI.queueHeld _ hm _ _ hw
      · exact hI.queueHeld _ hm _ _ hold
  case queueCompleted => exact hI.queueCompleted
  case heldCompleted =>
      intro v id' ph hv
      rcases getElem?_set_cases hv with ⟨_, hx⟩ | ⟨_, hold⟩
      · cases Option.some.inj hx
        exact hnc
      · exact hI.heldCompleted _ _ _ hold
  case activeCompleted => exact hI.activeCompleted
  case workersLen =>
      rw [show (startTask s w id).workers = s.workers.set w (some (id, WPhase.run)) from rfl,
        List.length_set]
      exact hI.workersLen
  case activeNonterminal =>
      intro id' t hg hm
      simp only [getTask, startTask, updTask] at hg
      rw [hget] at hg
      by_cases h : id' = id
      · rw [if_pos h] at hg
        rcases hlk : lookupT s.tasks id' with _ | t' <;> rw [hlk] at hg
        · cases hg
        · cases Option.some.inj hg
          rfl
      · rw [if_neg h] at hg
        exact hI.activeNonterminal _ _ hg hm
  case queuedStatus =>
      intro id' t hg hm
      simp only [getTask, startTask, updTask] at hg
      rw [hget] at hg
      by_cases h : id' = id
      · subst h
        exact absurd hm hnq
      · rw [if_neg h] at hg
        exact hI.queuedStatus _ _ hg hm
  case heldPreStatus =>
      intro v id' ph t hv hph hg
      rcases getElem?_set_cases hv with ⟨he, hx⟩ | ⟨hn, hold⟩
      · cases Option.some.inj hx
        exact absurd rfl hph
      · have hne : id' ≠ id := by
          intro heq
          subst heq
          exact hn (hI.heldUnique _ _ _ _ _ hold hw)
        simp only [getTask, startTask, updTask] at hg
        rw [hget, if_neg hne] at hg
        exact hI.heldPreStatus _ _ _ _ hold hph hg
  case heldRunStatus =>
      intro v id' t hv hg
      rcases getElem?_set_cases hv with ⟨he, hx⟩ | ⟨hn, hold⟩
      · cases Option.some.inj hx
        simp only [getTask, startTask, updTask] at hg
        rw [hget, if_pos rfl] at hg
        rcases hlk : lookupT s.tasks id with _ | t' <;> rw [hlk] at hg
        · cases hg
        · cases Option.some.inj hg
          exact Or.inl rfl
      · have hne : id' ≠ id := by
          intro heq
          subst heq
          exact hn (hI.heldUnique _ _ _ _ _ hold hw)
        simp only [getTask, startTask, updTask] at hg
        rw [hget, if_neg hne] at hg
        exact hI.heldRunStatus _ _ _ hold hg
  case dpHeld =>
      intro id' t hg hdp
      simp only [getTask, startTask, updTask] at hg
      rw [hget] at hg
      by_cases h : id' = id
      · subst h
        exact ⟨w, hself⟩
      · rw [if_neg h] at hg
        obtain ⟨v, hv⟩ := hI.dpHeld _ _ hg hdp
        have hvw : v ≠ w := by
          intro he
          rw [he, hw] at hv
          have := Option.some.inj (Option.some.inj hv)
          cases this
        refine ⟨v, ?_⟩
        rw [show (startTask s w id).workers = s.workers.set w (some (id, WPhase.run)) from rfl,
          List.getElem?_set_ne (Ne.symm hvw)]
        exact hv
  case completedTerminal =>
      intro id' t hg hm
      simp only [getTask, startTask, updTask] at hg
      rw [hget] at hg
      by_cases h : id' = id
      · subst h
        exact absurd hm hnc
      · rw [if_neg h] at hg
        exact hI.completedTerminal _ _ hg hm
  case terminalPlaced =>
      intro id' t hg hterm
      simp only [getTask, startTask, updTask] at hg
      rw [hget] at hg
      by_cases h : id' = id
      · rw [if_pos h] at hg
        rcases hlk : lookupT s.tasks id' with _ | t' <;> rw [hlk] at hg
        · cases hg
        · cases Option.some.inj hg
          cases hterm
      · rw [if_neg h] at hg
        exact hI.terminalPlaced _ _ hg hterm
  case errorIffFailed =>
      intro id' t hg
      simp only [getTask, startTask, updTask] at hg
      rw [hget] at hg
      by_cases h : id' = id
      · subst h
        rw [if_pos rfl, htold] at hg
        simp only [Option.map_some'] at hg
        cases Option.some.inj hg
        simp [htoldErr]
      · rw [if_neg h] at hg
        exact hI.errorIffFailed _ _ hg
  case filePathLib =>
      intro id' t hg hfp
      simp only [getTask, startTask, updTask] at hg
      rw [hget] at hg
      by_cases h : id' = id
      · rw [if_pos h] at hg
        rcases hlk : lookupT s.tasks id' with _ | t' <;> rw [hlk] at hg
        · cases hg
        · cases Option.some.inj hg
          exact hI.filePathLib _ _ hlk hfp
      · rw [if_neg h] at hg
        exact hI.filePathLib _ _ hg hfp
  case noCapNone =>
      intro hcap id' t hg
      simp only [getTask, startTask, updTask] at hg
      rw [hget] at hg
      by_cases h : id' = id
      · rw [if_pos h] at hg
        rcases hlk : lookupT s.tasks id' with _ | t' <;> rw [hlk] at hg
        · cases hg
        · cases Option.some.inj hg
          refine ⟨?_, ?_, ?_⟩
          · intro hh
            cases hh
          · intro hh
            cases hh
          · exact (hI.noCapNone hcap _ _ hlk).2.2
      · rw [if_neg h] at hg
        exact hI.noCapNone hcap _ _ hg

theorem inv_hookProgress (s : SysState) (id p : Nat) (spd eta : String) (hI : Inv s) :
    Inv (hookProgressStep s id p spd eta) := by
  have hget : ∀ id' : Nat,
      lookupT (setT s.tasks id (fun t => { t with progress := p, speed := spd, eta := eta })) id'
        = if id' = id then
            (lookupT s.tasks id').map (fun t => { t with progress := p, speed := spd, eta := eta })
          else lookupT s.tasks id' :=
    fun id' => lookupT_setT s.tasks id id' _
  have hsplit : ∀ (id' : Nat) (t : Task), getTask (hookProgressStep s id p spd eta) id' = some t →
      ∃ t', lookupT s.tasks id' = some t' ∧ t.status = t'.status ∧ t.error = t'.error ∧
        t.file_path = t'.file_path := by
    intro id' t hg
    simp only [getTask, hookProgressStep, updTask] at hg
    rw [hget] at hg
    by_cases h : id' = id
    · rw [if_pos h] at hg
      rcases hlk : lookupT s.tasks id' with _ | t' <;> rw [hlk] at hg
      · cases hg
      · cases Option.some.inj hg
        exact ⟨t', rfl, rfl, rfl, rfl⟩
    · rw [if_neg h] at hg
      exact ⟨t, hg, rfl, rfl, rfl⟩
  constructor
  case keysNodup => simpa [hookProgressStep, updTask, keys_setT] using hI.keysNodup
  case idsLt => simpa [hookProgressStep, updTask, keys_setT] using hI.idsLt
  case activeKeys =>
      intro id' hm
      simpa [hookProgressStep, updTask, keys_setT] using hI.activeKeys _ hm
  case queueKeys =>
      intro id' hm
      simpa [hookProgressStep, updTask, keys_setT] using hI.queueKeys _ hm
  case completedKeys =>
      intro id' hm
      simpa [hookProgressStep, updTask, keys_setT] using hI.completedKeys _ hm
  case heldKeys =>
      intro v id' ph hv
      simpa [hookProgressStep, updTask, keys_setT] using hI.heldKeys _ _ _ hv
  case activeNodup => exact hI.activeNodup
  case queueSorted => exact hI.queueSorted
  case completedNodup => exact hI.completedNodup
  case heldUnique => exact hI.heldUnique
  case queueHeld => exact hI.queueHeld
  case queueCompleted => exact hI.queueCompleted
  case heldCompleted => exact hI.heldCompleted
  case activeCompleted => exact hI.activeCompleted
  case workersLen => exact hI.workersLen
  case activeNonterminal =>
      intro id' t hg hm
      obtain ⟨t', hlk, hst, _, _⟩ := hsplit _ _ hg
      rw [hst]
      exact hI.activeNonterminal _ _ hlk hm
  case queuedStatus =>
      intro id' t hg hm
      obtain ⟨t', hlk, hst, _, _⟩ := hsplit _ _ hg
      rw [hst]
      exact hI.queuedStatus _ _ hlk hm
  case heldPreStatus =>
      intro v id' ph t hv hph hg
      obtain ⟨t', hlk, hst, _, _⟩ := hsplit _ _ hg
      rw [hst]
      exact hI.heldPreStatus _ _ _ _ hv hph hlk
  case heldRunStatus =>
      intro v id' t hv hg
      obtain ⟨t', hlk, hst, _, _⟩ := hsplit _ _ hg
      rw [hst]
      exact hI.heldRunStatus _ _ _ hv hlk
  case dpHeld =>
      intro id' t hg hdp
      obtain ⟨t', hlk, hst, _, _⟩ := hsplit _ _ hg
      rw [hst] at hdp
      exact hI.dpHeld _ _ hlk hdp
  case completedTerminal =>
      intro id' t hg hm
      obtain ⟨t', hlk, hst, _, _⟩ := hsplit _ _ hg
      rw [hst]
      exact hI.completedTerminal _ _ hlk hm
  case terminalPlaced =>
      intro id' t hg hterm
      obtain ⟨t', hlk, hst, _, _⟩ := hsplit _ _ hg
      rw [hst] at hterm ⊢
      exact hI.terminalPlaced _ _ hlk hterm
  case errorIffFailed =>
      intro id' t hg
      obtain ⟨t', hlk, hst, herr, _⟩ := hsplit _ _ hg
      rw [hst, herr]
      exact hI.errorIffFailed _ _ hlk
  case filePathLib =>
      intro id' t hg hfp
      obtain ⟨t', hlk, _, _, hfile⟩ := hsplit _ _ hg
      rw [hfile] at hfp
      exact hI.filePathLib _ _ hlk hfp
  case noCapNone =>
      intro hcap id' t hg
      obtain ⟨t', hlk, hst, herr, _⟩ := hsplit _ _ hg
      rw [hst, herr]
      exact hI.noCapNone hcap _ _ hlk

theorem inv_hookFinished (s : SysState) (w id : Nat) (fname : Option String)
    (hw : s.workers[w]? = some (some (id, WPhase.run)))
    (hlib : s.cfg.hasLib = true)
    (hI : Inv s) : Inv (hookFinishedStep s id fname) := by
  have hget : ∀ id' : Nat,
      lookupT (setT s.tasks id
          (fun t => { t with status := Status.Processing, progress := 100,
                              file_path := fname })) id'
        = if id' = id then
            (lookupT s.tasks id').map
              (fun t => { t with status := Status.Processing, progress := 100,
                                  file_path := fname })
          else lookupT s.tasks id' :=
    fun id' => lookupT_setT s.tasks id id' _
  have hnq : id ∉ s.queue := fun hm => hI.queueHeld _ hm w _ hw
  have hnc : id ∉ s.completed := hI.heldCompleted _ _ _ hw
  obtain ⟨told, htold⟩ := lookupT_isSome_of_mem_keys (hI.heldKeys _ _ _ hw)
  have htoldErr : told.error = none := by
    rcases he : told.error with _ | e
    · rfl
    · have hf : told.status = .Failed := (hI.errorIffFailed _ _ htold).mp (by simp [he])
      rcases hI.heldRunStatus _ _ _ hw htold with h' | h' | h' <;> rw [hf] at h' <;> cases h'
  constructor
  case keysNodup => simpa [hookFinishedStep, updTask, keys_setT] using hI.keysNodup
  case idsLt => simpa [hookFinishedStep, updTask, keys_setT] using hI.idsLt
  case activeKeys =>
      intro id' hm
      simpa [hookFinishedStep, updTask, keys_setT] using hI.activeKeys _ hm
  case queueKeys =>
      intro id' hm
      simpa [hookFinishedStep, updTask, keys_setT] using hI.queueKeys _ hm
  case completedKeys =>
      intro id' hm
      simpa [hookFinishedStep, updTask, keys_setT] using hI.completedKeys _ hm
  case heldKeys =>
      intro v id' ph hv
      simpa [hookFinishedStep, updTask, keys_setT] using hI.heldKeys _ _ _ hv
  case activeNodup => exact hI.activeNodup
  case queueSorted => exact hI.queueSorted
  case completedNodup => exact hI.completedNodup
  case heldUnique => exact hI.heldUnique
  case queueHeld => exact hI.queueHeld
  case queueCompleted => exact hI.queueCompleted
  case heldCompleted => exact hI.heldCompleted
  case activeCompleted => exact hI.activeCompleted
  case workersLen => exact hI.workersLen
  case activeNonterminal =>
      intro id' t hg hm
      simp only [getTask, hookFinishedStep, updTask] at hg
      rw [hget] at hg
      by_cases h : id' = id
      · rw [if_pos h] at hg
        rcases hlk : lookupT s.tasks id' with _ | t' <;> rw [hlk] at hg
        · cases hg
        · cases Option.some.inj hg
          rfl
      · rw [if_neg h] at hg
        exact hI.activeNonterminal _ _ hg hm
  case queuedStatus =>
      intro id' t hg hm
      simp only [getTask, hookFinishedStep, updTask] at hg
      rw [hget] at hg
      by_cases h : id' = id
      · subst h
        exact absurd hm hnq
      · rw [if_neg h] at hg
        exact hI.queuedStatus _ _ hg hm
  case heldPreStatus =>
      intro v id' ph t hv hph hg
      have hne : id' ≠ id := by
        intro heq
        subst heq
        have hv' : s.workers[v]? = some (some (id', ph)) := hv
        have hvw := hI.heldUnique _ _ _ _ _ hv' hw
        subst hvw
        rw [hv'] at hw
        cases Option.some.inj (Option.some.inj hw)
        exact hph rfl
      simp only [getTask, hookFinishedStep, updTask] at hg
      rw [hget, if_neg hne] at hg
      exact hI.heldPreStatus _ _ _ _ hv hph hg
  case heldRunStatus =>
      intro v id' t hv hg
      simp only [getTask, hookFinishedStep, updTask] at hg
      rw [hget] at hg
      by_cases h : id' = id
      · rw [if_pos h] at hg
        rcases hlk : lookupT s.tasks id' with _ | t' <;> rw [hlk] at hg
        · cases hg
        · cases Option.some.inj hg
          exact Or.inr (Or.inl rfl)
      · rw [if_neg h] at hg
        exact hI.heldRunStatus _ _ _ hv hg
  case dpHeld =>
      intro id' t hg hdp
      simp only [getTask, hookFinishedStep, updTask] at hg
      rw [hget] at hg
      by_cases h : id' = id
      · subst h
        exact ⟨w, hw⟩
      · rw [if_neg h] at hg
        exact hI.dpHeld _ _ hg hdp
  case completedTerminal =>
      intro id' t hg hm
      simp only [getTask, hookFinishedStep, updTask] at hg
      rw [hget] at hg
      by_cases h : id' = id
      · subst h
        exact absurd hm hnc
      · rw [if_neg h] at hg
        exact hI.completedTerminal _ _ hg hm
  case terminalPlaced =>
      intro id' t hg hterm
      simp only [getTask, hookFinishedStep, updTask] at hg
      rw [hget] at hg
      by_cases h : id' = id
      · rw [if_pos h] at hg
        rcases hlk : lookupT s.tasks id' with _ | t' <;> rw [hlk] at hg
        · cases hg
        · cases Option.some.inj hg
          cases hterm
      · rw [if_neg h] at hg
        exact hI.terminalPlaced _ _ hg hterm
  case errorIffFailed =>
      intro id' t hg
      simp only [getTask, hookFinishedStep, updTask] at hg
      rw [hget] at hg
      by_cases h : id' = id
      · subst h
        rw [if_pos rfl, htold] at hg
        simp only [Option.map_some'] at hg
        cases Option.some.inj hg
        simp [htoldErr]
      · rw [if_neg h] at hg
        exact hI.errorIffFailed _ _ hg
  case filePathLib =>
      intro id' t hg hfp
      simp only [getTask, hookFinishedStep, updTask] at hg
      rw [hget] at hg
      by_cases h : id' = id
      · exact hlib
      · rw [if_neg h] at hg
        exact hI.filePathLib _ _ hg hfp
  case noCapNone =>
      intro hcap id' t hg
      have hc : hasCapability s.cfg = false := hcap
      simp [hasCapability, hlib] at hc

theorem inv_finishCore (s : SysState) (w id : Nat) (f : Task → Task)
    (hw : s.workers[w]? = some (some (id, WPhase.run)))
    (hI : Inv s)
    (told : Task) (htold : getTask s id = some told)
    (hterm : (f told).status.isTerminal = true)
    (hnotC : (f told).status = .Completed → hasCapability s.cfg = true)
    (hnotDP : (f told).status ≠ Status.Downloading ∧ (f told).status ≠ Status.Processing)
    (herrIff : (f told).error.isSome = true ↔ (f told).status = .Failed)
    (hfile : (f told).file_path = told.file_path)
    (hnoCapErr : hasCapability s.cfg = false → (f told).error.isSome = true →
        (f told).error = some noCapabilityMsg) :
    Inv (finalizeTask (updTask s id f) w id) := by
  have hget : ∀ id' : Nat,
      lookupT (setT s.tasks id f) id'
        = if id' = id then (lookupT s.tasks id').map f else lookupT s.tasks id' :=
    fun id' => lookupT_setT s.tasks id id' f
  have hnq : id ∉ s.queue := fun hm => hI.queueHeld _ hm w _ hw
  have hnc : id ∉ s.completed := hI.heldCompleted _ _ _ hw
  have hidkeys : id ∈ s.tasks.map Prod.fst := hI.heldKeys _ _ _ hw
  have hgid : ∀ t : Task, getTask (finalizeTask (updTask s id f) w id) id = some t →
      t = f told := by
    intro t hg
    simp only [getTask, finalizeTask, updTask] at hg
    rw [hget, if_pos rfl] at hg
    rw [show lookupT s.tasks id = some told from htold] at hg
    simp only [Option.map_some'] at hg
    exact (Option.some.inj hg).symm
  have hgother : ∀ (id' : Nat) (t : Task), id' ≠ id →
      getTask (finalizeTask (updTask s id f) w id) id' = some t →
      lookupT s.tasks id' = some t := by
    intro id' t hne hg
    simp only [getTask, finalizeTask, updTask] at hg
    rw [hget, if_neg hne] at hg
    exact hg
  constructor
  case keysNodup => simpa [finalizeTask, updTask, keys_setT] using hI.keysNodup
  case idsLt => simpa [finalizeTask, updTask, keys_setT] using hI.idsLt
  case activeKeys =>
      intro id' hm
      simpa [finalizeTask, updTask, keys_setT] using
        hI.activeKeys id' (List.erase_subset id s.active hm)
  case queueKeys =>
      intro id' hm
      simpa [finalizeTask, updTask, keys_setT] using hI.queueKeys _ hm
  case completedKeys =>
      intro id' hm
      have hm' : id' ∈ s.completed ++ [id] := hm
      rw [List.mem_append, List.mem_singleton] at hm'
      rcases hm' with h | h
      · simpa [finalizeTask, updTask, keys_setT] using hI.completedKeys _ h
      · subst h
        simpa [finalizeTask, updTask, keys_setT] using hidkeys
  case heldKeys =>
      intro v id' ph hv
      rcases getElem?_set_cases hv with ⟨_, hx⟩ | ⟨_, hold⟩
      · cases hx
      · simpa [finalizeTask, updTask, keys_setT] using hI.heldKeys _ _ _ hold
  case activeNodup => exact hI.activeNodup.erase _
  case queueSorted => exact hI.queueSorted
  case completedNodup =>
      rw [show (finalizeTask (updTask s id f) w id).completed = s.completed ++ [id] from rfl,
        List.nodup_append]
      refine ⟨hI.completedNodup, List.nodup_singleton _, ?_⟩
      intro a ha hb
      have : a = id := by simpa using hb
      subst this
      exact hnc ha
  case heldUnique =>
      intro v₁ v₂ id' ph₁ ph₂ h₁ h₂
      rcases getElem?_set_cases h₁ with ⟨_, hx₁⟩ | ⟨_, hold₁⟩
      · cases hx₁
      rcases getElem?_set_cases h₂ with ⟨_, hx₂⟩ | ⟨_, hold₂⟩
      · cases hx₂
      exact hI.heldUnique _ _ _ _ _ hold₁ hold₂
  case queueHeld =>
      intro id' hm v ph hv
      rcases getElem?_set_cases hv with ⟨_, hx⟩ | ⟨_, hold⟩
      · cases hx
      · exact hI.queueHeld _ hm _ _ hold
  case queueCompleted =>
      intro id' hm
      intro hc
      have hc' : id' ∈ s.completed ++ [id] := hc
      rw [List.mem_append, List.mem_singleton] at hc'
      rcases hc' with h | h
      · exact hI.queueCompleted _ hm h
      · subst h
        exact hnq hm
  case heldCompleted =>
      intro v id' ph hv
      rcases getElem?_set_cases hv with ⟨_, hx⟩ | ⟨hn, hold⟩
      · cases hx
      · intro hc
        have hc' : id' ∈ s.completed ++ [id] := hc
        rw [List.mem_append, List.mem_singleton] at hc'
        rcases hc' with h | h
        · exact hI.heldCompleted _ _ _ hold h
        · subst h
          exact hn (hI.heldUnique _ _ _ _ _ hold hw)
  case activeCompleted =>
      intro id' hm
      have hm' := (hI.activeNodup.mem_erase_iff).mp hm
      intro hc
      have hc' : id' ∈ s.completed ++ [id] := hc
      rw [List.mem_append, List.mem_singleton] at hc'
      rcases hc' with h | h
      · exact hI.activeCompleted _ hm'.2 h
      · exact hm'.1 h
  case workersLen =>
      rw [show (finalizeTask (updTask s id f) w id).workers = s.workers.set w none from rfl,
        List.length_set]
      exact hI.workersLen
  case activeNonterminal =>
      intro id' t hg hm
      have hm' := (hI.activeNodup.mem_erase_iff).mp hm
      exact hI.activeNonterminal _ _ (hgother _ _ hm'.1 hg) hm'.2
  case queuedStatus =>
      intro id' t hg hm
      have hne : id' ≠ id := fun he => hnq (he ▸ hm)
      exact hI.queuedStatus _ _ (hgother _ _ hne hg) hm
  case heldPreStatus =>
      intro v id' ph t hv hph hg
      rcases getElem?_set_cases hv with ⟨_, hx⟩ | ⟨hn, hold⟩
      · cases hx
      · have hne : id' ≠ id := by
          intro he
          subst he
          exact hn (hI.heldUnique _ _ _ _ _ hold hw)
        exact hI.heldPreStatus _ _ _ _ hold hph (hgother _ _ hne hg)
  case heldRunStatus =>
      intro v id' t hv hg
      rcases getElem?_set_cases hv with ⟨_, hx⟩ | ⟨hn, hold⟩
      · cases hx
      · have hne : id' ≠ id := by
          intro he
          subst he
          exact hn (hI.heldUnique _ _ _ _ _ hold hw)
        exact hI.heldRunStatus _ _ _ hold (hgother _ _ hne hg)
  case dpHeld =>
      intro id' t hg hdp
      by_cases h : id' = id
      · subst h
        rw [hgid _ hg] at hdp
        rcases hdp with h' | h'
        · exact absurd h' hnotDP.1
        · exact absurd h' hnotDP.2
      · obtain ⟨v, hv⟩ := hI.dpHeld _ _ (hgother _ _ h hg) hdp
        have hvw : v ≠ w := by
          intro he
          subst he
          rw [hv] at hw
          cases Option.some.inj (Option.some.inj hw)
          exact h rfl
        refine ⟨v, ?_⟩
        rw [show (finalizeTask (updTask s id f) w id).workers = s.workers.set w none from rfl,
          List.getElem?_set_ne (Ne.symm hvw)]
        exact hv
  case completedTerminal =>
      intro id' t hg hm
      by_cases h : id' = id
      · subst h
        rw [hgid _ hg]
        exact hterm
      · have hm' : id' ∈ s.completed ++ [id] := hm
        rw [List.mem_append, List.mem_singleton] at hm'
        rcases hm' with hmo | hmo
        · exact hI.completedTerminal _ _ (hgother _ _ h hg) hmo
        · exact absurd hmo h
  case terminalPlaced =>
      intro id' t hg hterm'
      by_cases h : id' = id
      · subst h
        exact Or.inl (List.mem_append.mpr (Or.inr (List.mem_singleton.mpr rfl)))
      · rcases hI.terminalPlaced _ _ (hgother _ _ h hg) hterm' with hmo | hmo
        · exact Or.inl (List.mem_append.mpr (Or.inl hmo))
        · exact Or.inr hmo
  case errorIffFailed =>
      intro id' t hg
      by_cases h : id' = id
      · subst h
        rw [hgid _ hg]
        exact herrIff
      · exact hI.errorIffFailed _ _ (hgother _ _ h hg)
  case filePathLib =>
      intro id' t hg hfp
      by_cases h : id' = id
      · subst h
        rw [hgid _ hg, hfile] at hfp
        exact hI.filePathLib _ _ htold hfp
      · exact hI.filePathLib _ _ (hgother _ _ h hg) hfp
  case noCapNone =>
      intro hcap id' t hg
      have hcap' : hasCapability s.cfg = false := hcap
      by_cases h : id' = id
      · subst h
        rw [hgid _ hg]
        refine ⟨?_, hnotDP.2, hnoCapErr hcap'⟩
        intro hC
        rw [hnotC hC] at hcap'
        cases hcap'
      · exact hI.noCapNone hcap' _ _ (hgother _ _ h hg)

theorem heldRun_error_none (s : SysState) (w id : Nat)
    (hw : s.workers[w]? = some (some (id, WPhase.run)))
    (hI : Inv s) {told : Task} (htold : getTask s id = some told) :
    told.error = none := by
  rcases he : told.error with _ | e
  · rfl
  · have hf : told.status = .Failed := (hI.errorIffFailed _ _ htold).mp (by simp [he])
    rcases hI.heldRunStatus _ _ _ hw htold with h' | h' | h' <;> rw [hf] at h' <;> cases h'

theorem inv_finishSuccess (s : SysState) (w id : Nat)
    (hw : s.workers[w]? = some (some (id, WPhase.run)))
    (hcap : hasCapability s.cfg = true)
    (hI : Inv s) : Inv (finishSuccessStep s w id) := by
  obtain ⟨told, htold⟩ := lookupT_isSome_of_mem_keys (hI.heldKeys _ _ _ hw)
  have htoldErr : told.error = none := heldRun_error_none s w id hw hI htold
  refine inv_finishCore s w id _ hw hI told htold rfl (fun _ => hcap) ?_ ?_ rfl ?_
  · refine ⟨?_, ?_⟩
    · intro h
      cases h
    · intro h
      cases h
  · simp [htoldErr]
  · intro hc
    rw [hcap] at hc
    cases hc

theorem inv_finishFailure (s : SysState) (w id : Nat) (msg : String)
    (hw : s.workers[w]? = some (some (id, WPhase.run)))
    (hok : hasCapability s.cfg = true ∨ msg = noCapabilityMsg)
    (hI : Inv s) : Inv (finishFailureStep s w id msg) := by
  obtain ⟨told, htold⟩ := lookupT_isSome_of_mem_keys (hI.heldKeys _ _ _ hw)
  refine inv_finishCore s w id _ hw hI told htold rfl ?_ ?_ ?_ rfl ?_
  · intro h
    cases h
  · refine ⟨?_, ?_⟩
    · intro h
      cases h
    · intro h
      cases h
  · simp
  · intro hcapF _
    rcases hok with hok | hok
    · rw [hok] at hcapF
      cases hcapF
    · simp [hok]

theorem inv_finishCancelled (s : SysState) (w id : Nat)
    (hw : s.workers[w]? = some (some (id, WPhase.run)))
    (hI : Inv s) : Inv (finishCancelledStep s w id) := by
  obtain ⟨told, htold⟩ := lookupT_isSome_of_mem_keys (hI.heldKeys _ _ _ hw)
  have htoldErr : told.error = none := heldRun_error_none s w id hw hI htold
  refine inv_finishCore s w id _ hw hI told htold rfl ?_ ?_ ?_ rfl ?_
  · intro h
    cases h
  · refine ⟨?_, ?_⟩
    · intro h
      cases h
    · intro h
      cases h
  · simp [htoldErr]
  · intro _ hsome
    simp only [htoldErr] at hsome
    cases hsome

theorem inv_cancel (s : SysState) (id : Nat) (hI : Inv s) : Inv (cancelTask s id).1 := by
  unfold cancelTask
  by_cases hmem : id ∈ s.active
  · rw [if_pos hmem]
    exact inv_cancelCore s id hmem hI
  · rw [if_neg hmem]
    exact hI

/-- Every step of the system preserves the invariant. -/
theorem inv_step {s s' : SysState} (hI : Inv s) (h : Step s s') : Inv s' := by
  cases h with
  | enqueue url download_type is_playlist quality format_type title =>
      exact inv_enqueue s url download_type is_playlist quality format_type title hI
  | cancel id => exact inv_cancel s id hI
  | take w id hw hq => exact inv_take s w id hw hq hI
  | skip w id hw hc => exact inv_skip s w id hw hI
  | check w id hw hc => exact inv_check s w id hw hI
  | start w id hw => exact inv_start s w id hw hI
  | hookProgress w id p spd eta hw hlib => exact inv_hookProgress s id p spd eta hI
  | hookFinished w id fname hw hlib => exact inv_hookFinished s w id fname hw hlib hI
  | finishSuccess w id hw hcap => exact inv_finishSuccess s w id hw hcap hI
  | finishFailure w id msg hw hcap =>
      exact inv_finishFailure s w id msg hw (Or.inl hcap) hI
  | finishNoCap w id hw hcap =>
      exact inv_finishFailure s w id noCapabilityMsg hw (Or.inr rfl) hI
  | finishCancelled w id hw => exact inv_finishCancelled s w id hw hI

/-- Every reachable state satisfies the invariant. -/
theorem inv_reachable {cfg : Config} {s : SysState} (h : Reachable cfg s) : Inv s := by
  induction h with
  | refl => exact inv_init cfg
  | tail _ hstep ih => exact inv_step ih hstep

/-! ## General step lemmas -/

/-- No step changes the configuration. -/
theorem step_cfg {s s' : SysState} (h : Step s s') : s'.cfg = s.cfg := by
  cases h with
  | cancel id =>
      unfold cancelTask
      split <;> rfl
  | _ => rfl

/-- A reachable state still carries the startup configuration. -/
theorem reach_cfg {cfg : Config} {s : SysState} (h : Reachable cfg s) : s.cfg = cfg := by
  induction h with
  | refl => rfl
  | tail _ hstep ih => rw [step_cfg hstep, ih]

/-- Task ids are never deleted from the store. -/
theorem step_keys_mono {s s' : SysState} (h : Step s s') :
    ∀ id ∈ s.tasks.map Prod.fst, id ∈ s'.tasks.map Prod.fst := by
  intro id hm
  cases h with
  | enqueue url download_type is_playlist quality format_type title =>
      simp only [addDownload, List.map_append, List.mem_append]
      exact Or.inl hm
  | cancel id₀ =>
      unfold cancelTask
      split
      · simpa [updTask, keys_setT] using hm
      · exact hm
  | take w id₀ hw hq => exact hm
  | skip w id₀ hw hc => exact hm
  | check w id₀ hw hc => exact hm
  | start w id₀ hw => simpa [startTask, updTask, keys_setT] using hm
  | hookProgress w id₀ p spd eta hw hlib =>
      simpa [hookProgressStep, updTask, keys_setT] using hm
  | hookFinished w id₀ fname hw hlib =>
      simpa [hookFinishedStep, updTask, keys_setT] using hm
  | finishSuccess w id₀ hw hcap =>
      simpa [finishSuccessStep, finalizeTask, updTask, keys_setT] using hm
  | finishFailure w id₀ msg hw hcap =>
      simpa [finishFailureStep, finalizeTask, updTask, keys_setT] using hm
  | finishNoCap w id₀ hw hcap =>
      simpa [finishFailureStep, finalizeTask, updTask, keys_setT] using hm
  | finishCancelled w id₀ hw =>
      simpa [finishCancelledStep, finalizeTask, updTask, keys_setT] using hm

/-- Once a task is in the history, no step modifies its record or removes
it from the history. -/
theorem frozen_step {s s' : SysState} (hI : Inv s) (h : Step s s') (id : Nat)
    (hm : id ∈ s.completed) :
    getTask s' id = getTask s id ∧ id ∈ s'.completed := by
  have hkeys : id ∈ s.tasks.map Prod.fst := hI.completedKeys _ hm
  have hlt : id < s.nextId := hI.idsLt _ hkeys
  cases h with
  | enqueue url download_type is_playlist quality format_type title =>
      constructor
      · exact lookupT_append_old _ (Nat.ne_of_lt hlt)
      · exact hm
  | cancel id₀ =>
      unfold cancelTask
      split
      · next hactive =>
          have hne : id ≠ id₀ := by
            intro he
            subst he
            exact hI.activeCompleted _ hactive hm
          exact ⟨lookupT_setT_ne (l := s.tasks)
            (fun t => { t with status := Status.Cancelled }) hne, hm⟩
      · exact ⟨rfl, hm⟩
  | take w id₀ hw hq => exact ⟨rfl, hm⟩
  | skip w id₀ hw hc => exact ⟨rfl, hm⟩
  | check w id₀ hw hc => exact ⟨rfl, hm⟩
  | start w id₀ hw =>
      have hne : id ≠ id₀ := by
        intro he
        subst he
        exact hI.heldCompleted _ _ _ hw hm
      exact ⟨lookupT_setT_ne (l := s.tasks)
        (fun t => { t with status := Status.Downloading }) hne, hm⟩
  | hookProgress w id₀ p spd eta hw hlib =>
      have hne : id ≠ id₀ := by
        intro he
        subst he
        exact hI.heldCompleted _ _ _ hw hm
      exact ⟨lookupT_setT_ne (l := s.tasks)
        (fun t => { t with progress := p, speed := spd, eta := eta }) hne, hm⟩
  | hookFinished w id₀ fname hw hlib =>
      have hne : id ≠ id₀ := by
        intro he
        subst he
        exact hI.heldCompleted _ _ _ hw hm
      exact ⟨lookupT_setT_ne (l := s.tasks)
        (fun t => { t with status := Status.Processing, progress := 100,
                            file_path := fname }) hne, hm⟩
  | finishSuccess w id₀ hw hcap =>
      have hne : id ≠ id₀ := by
        intro he
        subst he
        exact hI.heldCompleted _ _ _ hw hm
      exact ⟨lookupT_setT_ne (l := s.tasks)
        (fun t => { t with status := Status.Completed, progress := 100 }) hne,
        List.mem_append.mpr (Or.inl hm)⟩
  | finishFailure w id₀ msg hw hcap =>
      have hne : id ≠ id₀ := by
        intro he
        subst he
        exact hI.heldCompleted _ _ _ hw hm
      exact ⟨lookupT_setT_ne (l := s.tasks)
        (fun t => { t with status := Status.Failed, error := some msg }) hne,
        List.mem_append.mpr (Or.inl hm)⟩
  | finishNoCap w id₀ hw hcap =>
      have hne : id ≠ id₀ := by
        intro he
        subst he
        exact hI.heldCompleted _ _ _ hw hm
      exact ⟨lookupT_setT_ne (l := s.tasks)
        (fun t => { t with status := Status.Failed, error := some noCapabilityMsg }) hne,
        List.mem_append.mpr (Or.inl hm)⟩
  | finishCancelled w id₀ hw =>
      have hne : id ≠ id₀ := by
        intro he
        subst he
        exact hI.heldCompleted _ _ _ hw hm
      exact ⟨lookupT_setT_ne (l := s.tasks)
        (fun t => { t with status := Status.Cancelled }) hne,
        List.mem_append.mpr (Or.inl hm)⟩

/-- A task that has left the active index never re-enters it. -/
theorem inactive_step {s s' : SysState} (hI : Inv s) (h : Step s s') (id : Nat)
    (hkeys : id ∈ s.tasks.map Prod.fst) (hna : id ∉ s.active) : id ∉ s'.active := by
  have hlt : id < s.nextId := hI.idsLt _ hkeys
  cases h with
  | enqueue url download_type is_playlist quality format_type title =>
      intro hmem
      have hmem' : id ∈ s.active ++ [s.nextId] := hmem
      rw [List.mem_append, List.mem_singleton] at hmem'
      rcases hmem' with h' | h'
      · exact hna h'
      · exact Nat.ne_of_lt hlt h'
  | cancel id₀ =>
      unfold cancelTask
      split
      · intro hmem
        exact hna (List.erase_subset id₀ s.active hmem)
      · exact hna
  | take w id₀ hw hq => exact hna
  | skip w id₀ hw hc => exact hna
  | check w id₀ hw hc => exact hna
  | start w id₀ hw => exact hna
  | hookProgress w id₀ p spd eta hw hlib => exact hna
  | hookFinished w id₀ fname hw hlib => exact hna
  | finishSuccess w id₀ hw hcap =>
      intro hmem
      exact hna (List.erase_subset id₀ s.active hmem)
  | finishFailure w id₀ msg hw hcap =>
      intro hmem
      exact hna (List.erase_subset id₀ s.active hmem)
  | finishNoCap w id₀ hw hcap =>
      intro hmem
      exact hna (List.erase_subset id₀ s.active hmem)
  | finishCancelled w id₀ hw =>
      intro hmem
      exact hna (List.erase_subset id₀ s.active hmem)

/-- When a step removes a task from the pending queue, the removed task is
the earliest-enqueued (least-id) pending task. -/
theorem queue_removal_is_head {s s' : SysState} (hI : Inv s) (h : Step s s') (id : Nat)
    (hin : id ∈ s.queue) (hout : id ∉ s'.queue) : ∀ j ∈ s.queue, id ≤ j := by
  cases h with
  | enqueue url download_type is_playlist quality format_type title =>
      exact absurd (List.mem_append.mpr (Or.inl hin)) hout
  | cancel id₀ =>
      exfalso
      revert hout
      unfold cancelTask
      split
      · exact fun hout => hout hin
      · exact fun hout => hout hin
  | take w id₀ hw hq =>
      have hdec : s.queue = id₀ :: s.queue.tail := queue_head_decomp hq
      have hid : id = id₀ := by
        rcases List.mem_cons.mp
            (show id ∈ id₀ :: s.queue.tail by rw [← hdec]; exact hin) with h' | h'
        · exact h'
        · exact absurd h' hout
      subst hid
      intro j hj
      rcases List.mem_cons.mp
          (show j ∈ id :: s.queue.tail by rw [← hdec]; exact hj) with h' | h'
      · exact Nat.le_of_eq h'.symm
      · have hsorted := hI.queueSorted
        rw [hdec, List.pairwise_cons] at hsorted
        exact Nat.le_of_lt (hsorted.1 _ h')
  | skip w id₀ hw hc => exact absurd hin hout
  | check w id₀ hw hc => exact absurd hin hout
  | start w id₀ hw => exact absurd hin hout
  | hookProgress w id₀ p spd eta hw hlib => exact absurd hin hout
  | hookFinished w id₀ fname hw hlib => exact absurd hin hout
  | finishSuccess w id₀ hw hcap => exact absurd hin hout
  | finishFailure w id₀ msg hw hcap => exact absurd hin hout
  | finishNoCap w id₀ hw hcap => exact absurd hin hout
  | finishCancelled w id₀ hw => exact absurd hin hout

/-! ## Reachability of the scenario traces -/

theorem reach_enqN {cfg : Config} {s : SysState} (h : Reachable cfg s) :
    Reachable cfg (enqN s) :=
  h.tail (Step.enqueue s "u" "video" true "best" "mp4" "T")

theorem reach_fullStart {cfg : Config} {s : SysState} (w id : Nat)
    (h : Reachable cfg s) (h1 : s.workers[w]? = some none)
    (h2 : s.queue.head? = some id)
    (h3 : statusOf (takeTask s w id) id ≠ some Status.Cancelled) :
    Reachable cfg (startTask (checkTask (takeTask s w id) w id) w id) := by
  have hwlt : w < s.workers.length := lt_length_of_getElem? h1
  have hw1 : (takeTask s w id).workers[w]? = some (some (id, WPhase.pre)) := by
    rw [show (takeTask s w id).workers = s.workers.set w (some (id, WPhase.pre)) from rfl]
    exact getElem?_set_self_of_lt _ hwlt
  have hw2 : (checkTask (takeTask s w id) w id).workers[w]?
      = some (some (id, WPhase.chk)) := by
    rw [show (checkTask (takeTask s w id) w id).workers
        = (takeTask s w id).workers.set w (some (id, WPhase.chk)) from rfl]
    refine getElem?_set_self_of_lt _ ?_
    rw [show (takeTask s w id).workers = s.workers.set w (some (id, WPhase.pre)) from rfl,
      List.length_set]
    exact hwlt
  exact ((h.tail (Step.take s w id h1 h2)).tail
    (Step.check (takeTask s w id) w id hw1 h3)).tail
    (Step.start (checkTask (takeTask s w id) w id) w id hw2)

theorem reach_c1s2 : Reachable cfgLib c1s2 :=
  (reach_enqN Relation.ReflTransGen.refl).tail (Step.cancel c1s1 0)

theorem reach_c2s4 : Reachable cfgLib c2s4 :=
  reach_fullStart 0 0 (reach_enqN Relation.ReflTransGen.refl)
    (by decide) (by decide) (by decide)

theorem reach_c2s5 : Reachable cfgLib c2s5 :=
  reach_c2s4.tail (Step.cancel c2s4 0)

theorem reach_c2s6 : Reachable cfgLib c2s6 :=
  reach_c2s5.tail (Step.finishSuccess c2s5 0 0 (by decide) (by decide))

theorem reach_c6s1 : Reachable cfgNone c6s1.1 :=
  Relation.ReflTransGen.refl.tail
    (Step.enqueue (initState cfgNone) "https://x.test/v" "video" true "best" "mp4" "T")

theorem reach_c7s5 : Reachable cfgBin c7s5 :=
  (reach_fullStart 0 0 (reach_enqN Relation.ReflTransGen.refl)
      (by decide) (by decide) (by decide)).tail
    (Step.finishSuccess c7s4 0 0 (by decide) (by decide))

theorem reach_c9e5 : Reachable cfgLib c9e5 :=
  reach_enqN (reach_enqN (reach_enqN (reach_enqN
    (reach_enqN Relation.ReflTransGen.refl))))

theorem reach_c9sA : Reachable cfgLib c9sA :=
  reach_fullStart 2 2
    (reach_fullStart 1 1
      (reach_fullStart 0 0 reach_c9e5 (by decide) (by decide) (by decide))
      (by decide) (by decide) (by decide))
    (by decide) (by decide) (by decide)

theorem reach_c9f : Reachable cfgLib c9f :=
  reach_c9sA.tail (Step.finishSuccess c9sA 0 0 (by decide) (by decide))

theorem reach_c9sB : Reachable cfgLib c9sB :=
  reach_fullStart 0 3 reach_c9f (by decide) (by decide) (by decide)

/-! ## Claim theorems -/

/-- C1 counterexample: a task cancelled while still sitting in the pending
queue reaches the terminal status `Cancelled` but is present in neither the
active index nor the completed history — refuting the claim that no
finalized task is absent from both, in particular for a task cancelled
while queued. -/
theorem C1_counterexample :
    Reachable cfgLib c1s2 ∧ statusOf c1s2 0 = some Status.Cancelled ∧
    Status.Cancelled.isTerminal = true ∧ 0 ∉ c1s2.active ∧ 0 ∉ c1s2.completed :=
  ⟨reach_c1s2, by decide, rfl, by decide, by decide⟩

/-- C1 (amended): in every reachable state no task is in both the active
index and the history; every task in the history is there exactly once and
has a terminal status; and every task with a terminal status is out of the
active index and is either in the history or was cancelled through
`cancel_task` (which removes a task from the active index without ever
adding it to the history). -/
theorem C1_finalization_amended (cfg : Config) (s : SysState) (h : Reachable cfg s)
    (id : Nat) (t : Task) (hg : getTask s id = some t) :
    ¬(id ∈ s.active ∧ id ∈ s.completed) ∧
    (id ∈ s.completed → s.completed.count id = 1 ∧ t.status.isTerminal = true) ∧
    (t.status.isTerminal = true →
      id ∉ s.active ∧ (id ∈ s.completed ∨ t.status = Status.Cancelled)) := by
  have hI := inv_reachable h
  refine ⟨?_, ?_, ?_⟩
  · rintro ⟨ha, hc⟩
    exact hI.activeCompleted _ ha hc
  · intro hc
    exact ⟨List.count_eq_one_of_mem hI.completedNodup hc,
      hI.completedTerminal _ _ hg hc⟩
  · intro hterm
    refine ⟨?_, hI.terminalPlaced _ _ hg hterm⟩
    intro ha
    rw [hI.activeNonterminal _ _ hg ha] at hterm
    cases hterm

/-- C1 witness: the amended statement evaluated on the one-task state of
the C1 trace. -/
theorem C1_witness :
    ¬(0 ∈ c1s1.active ∧ 0 ∈ c1s1.completed) ∧
    (0 ∈ c1s1.completed → c1s1.completed.count 0 = 1 ∧ Status.Queued.isTerminal = true) ∧
    (Status.Queued.isTerminal = true →
      0 ∉ c1s1.active ∧ (0 ∈ c1s1.completed ∨ Status.Queued = Status.Cancelled)) :=
  C1_finalization_amended cfgLib c1s1 (reach_enqN Relation.ReflTransGen.refl) 0
    { url := "u", title := "T", download_type := "video", quality := "best",
      format_type := "mp4", is_playlist := true } (by decide)

/-- C2 counterexample: a task whose status was set to `Cancelled` (a
terminal value) by `cancel_task` while a worker was downloading it is later
set to `Completed` by the worker's success path — refuting both that no
step leaves a terminal status and that such a task ends `Cancelled`. -/
theorem C2_counterexample :
    Reachable cfgLib c2s5 ∧ Step c2s5 c2s6 ∧
    statusOf c2s5 0 = some Status.Cancelled ∧
    statusOf c2s6 0 = some Status.Completed :=
  ⟨reach_c2s5, Step.finishSuccess c2s5 0 0 (by decide) (by decide), by decide, by decide⟩

/-- C2 (amended): once a task has been finalized into the history, no
later step changes its record or returns it to the active index; and a
task that has left the active index (e.g. by being cancelled while
downloading) is never re-added to it.  (The `Cancelled` status set by
`cancel_task` on a task that a worker is still processing is, however, not
stable: the worker's outcome overwrites it, as the counterexample
shows.) -/
theorem C2_terminal_stability_amended (cfg : Config) (s s' : SysState)
    (h : Reachable cfg s) (hss : Relation.ReflTransGen Step s s') (id : Nat) :
    (id ∈ s.completed →
      getTask s' id = getTask s id ∧ id ∈ s'.completed ∧ id ∉ s'.active) ∧
    (id ∈ s.tasks.map Prod.fst → id ∉ s.active →
      id ∈ s'.tasks.map Prod.fst ∧ id ∉ s'.active) := by
  induction hss with
  | refl =>
      refine ⟨fun hc => ⟨rfl, hc, ?_⟩, fun hk hna => ⟨hk, hna⟩⟩
      intro ha
      exact (inv_reachable h).activeCompleted _ ha hc
  | tail hchain hstep ih =>
      have hIb := inv_reachable (h.trans hchain)
      constructor
      · intro hc
        obtain ⟨hg, hcb, hnab⟩ := ih.1 hc
        obtain ⟨hg2, hc2⟩ := frozen_step hIb hstep _ hcb
        exact ⟨hg2.trans hg, hc2,
          inactive_step hIb hstep _ (hIb.completedKeys _ hcb) hnab⟩
      · intro hk hna
        obtain ⟨hkb, hnab⟩ := ih.2 hk hna
        exact ⟨step_keys_mono hstep _ hkb, inactive_step hIb hstep _ hkb hnab⟩

/-- C2 witness: the amended statement evaluated on the final state of the
C2 trace, whose task 0 sits in the history. -/
theorem C2_witness :
    getTask c2s6 0 = getTask c2s6 0 ∧ 0 ∈ c2s6.completed ∧ 0 ∉ c2s6.active :=
  (C2_terminal_stability_amended cfgLib c2s6 c2s6 reach_c2s6
      Relation.ReflTransGen.refl 0).1 (by decide)

/-- C3: in every reachable state at most `MAX_CONCURRENT = 3` tasks are in
`Downloading` or `Processing` status simultaneously, whatever the enqueue
burst was. -/
theorem C3_concurrency_bound (cfg : Config) (s : SysState) (h : Reachable cfg s) :
    (dpIds s).length ≤ MAX_CONCURRENT ∧ MAX_CONCURRENT = 3 := by
  classical
  have hI := inv_reachable h
  have hnodup : (dpIds s).Nodup := by
    unfold dpIds
    exact ((List.filter_sublist _).map _).nodup hI.keysNodup
  have hheld : ∀ id ∈ dpIds s,
      ∃ w : Nat, s.workers[w]? = some (some (id, WPhase.run)) := by
    intro id hm
    unfold dpIds at hm
    obtain ⟨p, hp, hfst⟩ := List.mem_map.mp hm
    have hpf := List.mem_filter.mp hp
    have hdp : p.2.status = Status.Downloading ∨ p.2.status = Status.Processing := by
      have := hpf.2
      simpa using this
    have hlk : lookupT s.tasks p.1 = some p.2 := lookupT_of_mem hI.keysNodup hpf.1
    exact hI.dpHeld _ _ (hfst ▸ hlk) hdp
  refine ⟨?_, rfl⟩
  rw [← List.toFinset_card_of_nodup hnodup, ← Finset.card_range MAX_CONCURRENT]
  refine Finset.card_le_card_of_injOn
    (fun id => if hx : ∃ w : Nat, s.workers[w]? = some (some (id, WPhase.run))
               then hx.choose else 0) ?_ ?_
  · intro id hm
    rw [List.mem_toFinset] at hm
    obtain ⟨w, hw⟩ := hheld id hm
    have hx : ∃ w : Nat, s.workers[w]? = some (some (id, WPhase.run)) := ⟨w, hw⟩
    show (if hx2 : ∃ w : Nat, s.workers[w]? = some (some (id, WPhase.run))
          then hx2.choose else 0) ∈ Finset.range MAX_CONCURRENT
    rw [dif_pos hx, Finset.mem_range, ← hI.workersLen]
    exact lt_length_of_getElem? hx.choose_spec
  · intro a ha b hb hfe
    rw [Finset.mem_coe, List.mem_toFinset] at ha hb
    obtain ⟨wa, hwa⟩ := hheld a ha
    obtain ⟨wb, hwb⟩ := hheld b hb
    have hxa : ∃ w : Nat, s.workers[w]? = some (some (a, WPhase.run)) := ⟨wa, hwa⟩
    have hxb : ∃ w : Nat, s.workers[w]? = some (some (b, WPhase.run)) := ⟨wb, hwb⟩
    simp only [dif_pos hxa, dif_pos hxb] at hfe
    have hsa := hxa.choose_spec
    have hsb := hxb.choose_spec
    rw [hfe] at hsa
    rw [hsa] at hsb
    exact congrArg Prod.fst (Option.some.inj (Option.some.inj hsb))

/-- C3 witness: the bound evaluated on the C9 trace state in which all
three workers are busy. -/
theorem C3_witness : (dpIds c9sA).length ≤ MAX_CONCURRENT ∧ MAX_CONCURRENT = 3 :=
  C3_concurrency_bound cfgLib c9sA reach_c9sA

/-- C6 counterexample: with neither extraction strategy available, an
enqueue call still succeeds, returns a task id and creates a `Queued` task
in the active index and the pending queue — refuting the claim that every
enqueue is rejected with no task created. -/
theorem C6_counterexample :
    hasCapability cfgNone = false ∧ Reachable cfgNone c6s1.1 ∧ c6s1.2 = 0 ∧
    0 ∈ c6s1.1.active ∧ 0 ∈ c6s1.1.queue ∧ statusOf c6s1.1 0 = some Status.Queued :=
  ⟨rfl, reach_c6s1, rfl, by decide, by decide, by decide⟩

/-- C6 (amended): with neither extraction strategy available, enqueues are
still accepted, but no task ever reaches `Completed` (or `Processing`),
and every task that a worker finalizes lands in the history either
`Cancelled` or `Failed` with exactly the no-capability error message — the
incapacity is reported per task, and the rest of the state machine (queue,
cancel, status reads) keeps operating. -/
theorem C6_no_capability_amended (cfg : Config) (s : SysState)
    (hcap : hasCapability cfg = false) (h : Reachable cfg s) :
    (∀ id t, getTask s id = some t →
      t.status ≠ Status.Completed ∧ t.status ≠ Status.Processing) ∧
    (∀ id ∈ s.completed, ∃ t, getTask s id = some t ∧
      (t.status = Status.Cancelled ∨
        (t.status = Status.Failed ∧ t.error = some noCapabilityMsg))) := by
  have hI := inv_reachable h
  have hcap' : hasCapability s.cfg = false := by
    rw [reach_cfg h]
    exact hcap
  constructor
  · intro id t hg
    exact ⟨(hI.noCapNone hcap' _ _ hg).1, (hI.noCapNone hcap' _ _ hg).2.1⟩
  · intro id hc
    obtain ⟨t, hg⟩ := lookupT_isSome_of_mem_keys (hI.completedKeys _ hc)
    refine ⟨t, hg, ?_⟩
    have hterm := hI.completedTerminal _ _ hg hc
    have hnc := hI.noCapNone hcap' _ _ hg
    rcases hst : t.status with _ | _ | _ | _ | _ | _
    · rw [hst] at hterm
      cases hterm
    · rw [hst] at hterm
      cases hterm
    · rw [hst] at hterm
      cases hterm
    · exact absurd hst hnc.1
    · refine Or.inr ⟨rfl, ?_⟩
      have hsome : t.error.isSome = true := (hI.errorIffFailed _ _ hg).mpr hst
      exact hnc.2.2 hsome
    · exact Or.inl rfl

/-- C6 witness: the amended statement evaluated on the no-capability state
holding one queued task. -/
theorem C6_witness :
    (Status.Queued ≠ Status.Completed ∧ Status.Queued ≠ Status.Processing) ∧
    (∀ id ∈ c6s1.1.completed, ∃ t, getTask c6s1.1 id = some t ∧
      (t.status = Status.Cancelled ∨
        (t.status = Status.Failed ∧ t.error = some noCapabilityMsg))) := by
  have h := C6_no_capability_amended cfgNone c6s1.1 rfl reach_c6s1
  refine ⟨?_, h.2⟩
  exact h.1 0
    { url := "https://x.test/v", title := "T", download_type := "video",
      quality := "best", format_type := "mp4", is_playlist := true }
    (by decide)

/-- C7 counterexample: a task completed through the binary strategy ends
`Completed` with neither the output file path nor the error detail set —
refuting the claim that exactly one of the two is set once the status is
terminal and that the file path is set exactly on `Completed`. -/
theorem C7_counterexample :
    Reachable cfgBin c7s5 ∧ getTask c7s5 0 = some c7task ∧
    c7task.status = Status.Completed ∧ c7task.file_path = none ∧
    c7task.error = none :=
  ⟨reach_c7s5, by decide, rfl, rfl, rfl⟩

/-- C7 (amended): in every reachable state the error detail is set exactly
when the task's status is `Failed`; the resolved file path, however, is
only ever set by the structured (library) strategy's finished event, so
under a binary-only configuration no task ever carries a file path — a
`Completed` task may have neither field set. -/
theorem C7_terminal_fields_amended (cfg : Config) (s : SysState) (h : Reachable cfg s)
    (id : Nat) (t : Task) (hg : getTask s id = some t) :
    (t.error.isSome = true ↔ t.status = Status.Failed) ∧
    (t.file_path.isSome = true → cfg.hasLib = true) := by
  have hI := inv_reachable h
  refine ⟨hI.errorIffFailed _ _ hg, ?_⟩
  intro hfp
  rw [← reach_cfg h]
  exact hI.filePathLib _ _ hg hfp

/-- C7 witness: the amended statement evaluated on the binary-completed
task of the C7 trace. -/
theorem C7_witness :
    (c7task.error.isSome = true ↔ c7task.status = Status.Failed) ∧
    (c7task.file_path.isSome = true → cfgBin.hasLib = true) :=
  C7_terminal_fields_amended cfgBin c7s5 reach_c7s5 0 c7task (by decide)

/-- C9: the pending queue is always sorted in enqueue order (ids are
assigned in increasing enqueue order) and any step that removes a task
from the queue removes the earliest-enqueued pending one; concretely, an
enqueue burst of 5 with ceiling 3 yields exactly 3 `Downloading` and 2
`Queued` tasks, and after one finalization exactly the earliest queued
task (3) starts, leaving task 4 queued. -/
theorem C9_fifo_scheduling :
    (∀ (cfg : Config) (s s' : SysState), Reachable cfg s → Step s s' →
      s.queue.Pairwise (· < ·) ∧
      ∀ id ∈ s.queue, id ∉ s'.queue → ∀ j ∈ s.queue, id ≤ j) ∧
    (Reachable cfgLib c9sA ∧ countStatus c9sA Status.Downloading = 3 ∧
      countStatus c9sA Status.Queued = 2 ∧ c9sA.queue = [3, 4]) ∧
    (Reachable cfgLib c9sB ∧ statusOf c9sB 0 = some Status.Completed ∧
      statusOf c9sB 3 = some Status.Downloading ∧
      statusOf c9sB 4 = some Status.Queued ∧
      countStatus c9sB Status.Downloading = 3 ∧ c9sB.queue = [4]) := by
  refine ⟨?_, ⟨reach_c9sA, by decide, by decide, by decide⟩,
    ⟨reach_c9sB, by decide, by decide, by decide, by decide, by decide⟩⟩
  intro cfg s s' h hstep
  exact ⟨(inv_reachable h).queueSorted,
    fun id hin hout => queue_removal_is_head (inv_reachable h) hstep id hin hout⟩

/-- C9 witness: the FIFO clause evaluated on the concrete dequeue of task 3
from the queue `[3, 4]`. -/
theorem C9_witness : c9f.queue.Pairwise (· < ·) ∧ 3 ≤ 4 := by
  have h := C9_fifo_scheduling.1 cfgLib c9f (takeTask c9f 0 3) reach_c9f
    (Step.take c9f 0 3 (by decide) (by decide))
  exact ⟨h.1, h.2 3 (by decide) (by decide) 4 (by decide)⟩

/-- C8: an enqueue request whose URL does not start with `http://` or
`https://` fails synchronously (the route returns an error and the manager
state is untouched — no task is created); a request with a well-formed URL
is accepted: the manager state gains a fresh `Queued` task, in the active
index and pending queue, and its id is returned. -/
theorem C8_enqueue_validation (cfg : Config) (s : SysState) (h : Reachable cfg s)
    (r : DownloadRequest) :
    (¬(pyStartsWith r.url "http://" = true ∨ pyStartsWith r.url "https://" = true) →
      serverAddDownload s r = Except.error
        (500, "Error queuing download: 400: URL must start with http:// or https://")) ∧
    ((pyStartsWith r.url "http://" = true ∨ pyStartsWith r.url "https://" = true) →
      serverAddDownload s r = Except.ok
        (addDownload s r.url r.download_type r.is_playlist r.quality r.format r.title) ∧
      (addDownload s r.url r.download_type r.is_playlist r.quality r.format r.title).2
        ∈ (addDownload s r.url r.download_type r.is_playlist r.quality r.format r.title).1.active ∧
      statusOf
        (addDownload s r.url r.download_type r.is_playlist r.quality r.format r.title).1
        (addDownload s r.url r.download_type r.is_playlist r.quality r.format r.title).2
        = some Status.Queued) := by
  have hI := inv_reachable h
  have hfresh : s.nextId ∉ s.tasks.map Prod.fst :=
    fun hmem => absurd (hI.idsLt _ hmem) (lt_irrefl _)
  constructor
  · intro hbad
    unfold serverAddDownload
    rw [if_pos hbad]
  · intro hok
    refine ⟨?_, ?_, ?_⟩
    · unfold serverAddDownload
      rw [if_neg (not_not_intro hok)]
    · exact List.mem_append.mpr (Or.inr (List.mem_singleton.mpr rfl))
    · show (lookupT (s.tasks ++ [(s.nextId, _)]) s.nextId).map Task.status
        = some Status.Queued
      rw [lookupT_append_fresh _ hfresh]
      rfl

/-- C8 witness: the validation behaviour evaluated on a malformed and on a
well-formed request against the initial state. -/
theorem C8_witness :
    serverAddDownload (initState cfgLib) { url := "ftp://x", download_type := "video" }
      = Except.error
        (500, "Error queuing download: 400: URL must start with http:// or https://") ∧
    statusOf
      (addDownload (initState cfgLib) "https://x.test/v" "video" false "1080p" "mp4"
        "Untitled").1
      (addDownload (initState cfgLib) "https://x.test/v" "video" false "1080p" "mp4"
        "Untitled").2 = some Status.Queued :=
  ⟨(C8_enqueue_validation cfgLib (initState cfgLib) Relation.ReflTransGen.refl
      { url := "ftp://x", download_type := "video" }).1 (by decide),
   ((C8_enqueue_validation cfgLib (initState cfgLib) Relation.ReflTransGen.refl
      { url := "https://x.test/v", download_type := "video" }).2 (by decide)).2.2⟩

/-- C10: cancelling a task id that is not in the active index returns
`false` and leaves the whole manager state — active index, pending queue,
history, and every task record — unchanged. -/
theorem C10_cancel_unknown_id (s : SysState) (id : Nat) (h : id ∉ s.active) :
    cancelTask s id = (s, false) := by
  unfold cancelTask
  rw [if_neg h]

/-- C10 witness: cancelling an unknown id on the initial state. -/
theorem C10_witness : cancelTask (initState cfgLib) 7 = (initState cfgLib, false) :=
  C10_cancel_unknown_id (initState cfgLib) 7 (by decide)

/-! ## Lemmas about the URL query machinery (claim C4) -/

theorem quotePlusChar_safe {c : Char} (h : isUrlSafeChar c = true) :
    quotePlusChar c = [c] := by
  have hsp : ¬(c = ' ') := by
    intro he
    rw [he] at h
    exact absurd h (by decide)
  unfold quotePlusChar
  rw [if_neg hsp, if_pos h]

theorem flatten_quote_safe : ∀ l : List Char, l.all isUrlSafeChar = true →
    (l.map quotePlusChar).flatten = l := by
  intro l hl
  induction l with
  | nil => rfl
  | cons c rest ih =>
      simp only [List.all_cons, Bool.and_eq_true] at hl
      simp only [List.map_cons, List.flatten_cons, quotePlusChar_safe hl.1]
      rw [ih hl.2]
      rfl

theorem quotePlus_safe {s : String} (h : s.data.all isUrlSafeChar = true) :
    quotePlus s = s := by
  obtain ⟨l⟩ := s
  unfold quotePlus
  exact congrArg String.mk (flatten_quote_safe l h)

theorem foldl_addQsPair : ∀ (l : List (String × String))
    (acc : List (String × List String)),
    ((acc.map Prod.fst) ++ l.map Prod.fst).Nodup →
    l.foldl addQsPair acc = acc ++ l.map (fun p => (p.1, [p.2])) := by
  intro l
  induction l with
  | nil =>
      intro acc _
      simp
  | cons p rest ih =>
      intro acc hnd
      have hknot : ¬(acc.any (fun g => g.1 = p.1) = true) := by
        intro hany
        obtain ⟨g, hg, hgeq⟩ := List.any_eq_true.mp hany
        have hgp : g.1 = p.1 := of_decide_eq_true hgeq
        rw [List.map_cons] at hnd
        have hdis := (List.nodup_append.mp hnd).2.2
        exact hdis (List.mem_map.mpr ⟨g, hg, rfl⟩) (hgp ▸ List.mem_cons_self _ _)
      have hstep : addQsPair acc p = acc ++ [(p.1, [p.2])] := by
        unfold addQsPair
        rw [if_neg hknot]
      show List.foldl addQsPair (addQsPair acc p) rest = _
      rw [hstep, ih (acc ++ [(p.1, [p.2])]) ?_, List.append_assoc]
      · rfl
      · rw [List.map_append, List.append_assoc]
        simpa using hnd

theorem filter_map_keyfilter (l : List (String × String)) :
    ((l.map (fun p => (p.1, [p.2]))).filter
        (fun g => ¬(g.1 = "list" ∨ g.1 = "index")))
      = (l.filter (fun p => ¬(p.1 = "list" ∨ p.1 = "index"))).map
          (fun p => (p.1, [p.2])) := by
  induction l with
  | nil => rfl
  | cons p rest ih =>
      simp only [List.map_cons, List.filter_cons]
      by_cases h : (p.1 = "list" ∨ p.1 = "index")
      · simp [h] at ih ⊢
        exact ih
      · simp [h] at ih ⊢
        exact ih

theorem urlencodeDoseq_singletons (l : List (String × String)) :
    urlencodeDoseq (l.map (fun p => (p.1, [p.2])))
      = String.intercalate "&"
          (l.map (fun p => quotePlus p.1 ++ "=" ++ quotePlus p.2)) := by
  unfold urlencodeDoseq
  congr 1
  induction l with
  | nil => rfl
  | cons p rest ih =>
      simp only [List.map_cons, List.flatten_cons]
      rw [ih]
      rfl

/-- C4 counterexample: on a URL whose remaining query repeats the key `a`,
the stripped URL regroups the occurrences of `a` together, so the other
parameters are not preserved in their original relative order — refuting
the claim for the concrete input
`https://x.test/watch?a=1&b=2&a=3&list=PL`. -/
theorem C4_counterexample :
    stripPlaylistParams "https://x.test/watch?a=1&b=2&a=3&list=PL"
      ≠ "https://x.test/watch?a=1&b=2&a=3" ∧
    stripPlaylistParams "https://x.test/watch?a=1&b=2&a=3&list=PL"
      = "https://x.test/watch?a=1&a=3&b=2" := by
  refine ⟨?_, by decide⟩
  decide

/-- C4 (amended): stripping removes exactly the `list` and `index`
parameters, but the remaining parameters are preserved unchanged and in
original relative order only when no remaining key repeats (repeats are
regrouped at the key's first occurrence), values are non-blank, and names
and values use unescaped safe characters; under those conditions (which the
spec's round-trip example satisfies) the re-encoded query is exactly the
original minus `list`/`index`, the stored task URL of a non-playlist
enqueue is the stripped URL, and the round-trip example holds as stated. -/
theorem C4_strip_params_amended :
    (∀ (q : String) (l : List (String × String)), parseQsl q = l →
      (l.map Prod.fst).Nodup →
      (∀ p ∈ l, p.1.data.all isUrlSafeChar = true ∧ p.2.data.all isUrlSafeChar = true) →
      stripQueryParams q =
        String.intercalate "&"
          ((l.filter (fun p => ¬(p.1 = "list" ∨ p.1 = "index"))).map
            (fun p => p.1 ++ "=" ++ p.2))) ∧
    (∀ (cfg : Config) (s : SysState), Reachable cfg s →
      ∀ url download_type quality format_type title : String,
      (getTask (addDownload s url download_type false quality format_type title).1
          (addDownload s url download_type false quality format_type title).2).map
        Task.url = some (stripPlaylistParams url)) ∧
    stripPlaylistParams "https://x.test/watch?v=abc&list=PL1&index=3"
      = "https://x.test/watch?v=abc" := by
  refine ⟨?_, ?_, by decide⟩
  · intro q l hl hnd hsafe
    unfold stripQueryParams parseQs
    rw [hl, foldl_addQsPair l [] (by simpa using hnd), List.nil_append,
      filter_map_keyfilter, urlencodeDoseq_singletons]
    congr 1
    apply List.map_congr_left
    intro p hp
    have hps := hsafe p (List.mem_of_mem_filter hp)
    rw [quotePlus_safe hps.1, quotePlus_safe hps.2]
  · intro cfg s h url download_type quality format_type title
    have hI := inv_reachable h
    have hfresh : s.nextId ∉ s.tasks.map Prod.fst :=
      fun hmem => absurd (hI.idsLt _ hmem) (lt_irrefl _)
    show (lookupT (s.tasks ++ [(s.nextId, _)]) s.nextId).map Task.url
      = some (stripPlaylistParams url)
    rw [lookupT_append_fresh _ hfresh]
    rfl

/-- C4 witness: the amended statement evaluated on the spec's round-trip
query and URL. -/
theorem C4_witness :
    stripQueryParams "v=abc&list=PL1&index=3" = "v=abc" ∧
    (getTask (addDownload (initState cfgLib)
        "https://x.test/watch?v=abc&list=PL1&index=3" "video" false "1080p" "mp4" "T").1
      (addDownload (initState cfgLib)
        "https://x.test/watch?v=abc&list=PL1&index=3" "video" false "1080p" "mp4" "T").2).map
      Task.url = some "https://x.test/watch?v=abc" :=
  ⟨(C4_strip_params_amended.1 "v=abc&list=PL1&index=3"
      [("v", "abc"), ("list", "PL1"), ("index", "3")]
      (by decide) (by decide) (by decide)).trans (by decide),
   (C4_strip_params_amended.2.1 cfgLib (initState cfgLib) Relation.ReflTransGen.refl
      "https://x.test/watch?v=abc&list=PL1&index=3" "video" "1080p" "mp4" "T").trans
     (by decide)⟩

/-! ## Lemmas about the format-selector extraction (claim C5) -/

theorem findHeightCap_skip {c : Char} (l : List Char) (hc : ('h' == c) = false) :
    findHeightCap (c :: l) = findHeightCap l := by
  have h : ("height<=".data.isPrefixOf (c :: l)) = false := by
    show (('h' :: "eight<=".data).isPrefixOf (c :: l)) = false
    simp [List.isPrefixOf, hc]
  simp [findHeightCap, h]

theorem findHeightCap_after (pre : List Char) (suf : List Char)
    (hpre : pre.all (fun c => !(c == 'h')) = true) :
    findHeightCap (pre ++ suf) = findHeightCap suf := by
  induction pre with
  | nil => rfl
  | cons c t ih =>
      simp only [List.all_cons, Bool.and_eq_true, Bool.not_eq_true'] at hpre
      rw [List.cons_append, findHeightCap_skip _ ?_, ih hpre.2]
      rw [beq_eq_false_iff_ne]
      exact Ne.symm (beq_eq_false_iff_ne.mp hpre.1)

theorem takeWhile_digits (h rest : List Char) (hd : h.all Char.isDigit = true) :
    (h ++ (']' :: rest)).takeWhile Char.isDigit = h := by
  induction h with
  | nil => simp [List.takeWhile]
  | cons c t ih =>
      simp only [List.all_cons, Bool.and_eq_true] at hd
      simp [List.takeWhile, hd.1, ih hd.2]

theorem isPrefixOf_append_self (l l' : List Char) : (l.isPrefixOf (l ++ l')) = true := by
  induction l with
  | nil => simp [List.isPrefixOf]
  | cons c t ih => simp [List.isPrefixOf, ih]

theorem findHeightCap_cons_pos (c : Char) (l : List Char)
    (hp : ("height<=".data.isPrefixOf (c :: l)) = true) :
    findHeightCap (c :: l)
      = some (digitsVal (((c :: l).drop 8).takeWhile Char.isDigit)) := by
  simp [findHeightCap, hp]

theorem findHeightCap_here (h rest : List Char) (hd : h.all Char.isDigit = true) :
    findHeightCap ("height<=".data ++ (h ++ (']' :: rest)))
      = some (digitsVal h) := by
  have hcons : "height<=".data ++ (h ++ (']' :: rest))
      = 'h' :: ("eight<=".data ++ (h ++ (']' :: rest))) := rfl
  rw [hcons, findHeightCap_cons_pos _ _ (by rw [← hcons]; exact isPrefixOf_append_self _ _)]
  congr 1
  rw [show ('h' :: ("eight<=".data ++ (h ++ (']' :: rest)))).drop 8
      = h ++ (']' :: rest) from rfl]
  exact congrArg digitsVal (takeWhile_digits h rest hd)

theorem stripPChar_digits_p (h : String) (hd : h.data.all Char.isDigit = true) :
    stripPChar (h ++ "p") = h := by
  unfold stripPChar
  rw [String.data_append]
  rw [List.filter_append]
  have h1 : h.data.filter (fun c => c ≠ 'p') = h.data := by
    apply List.filter_eq_self.mpr
    intro c hc
    have := List.all_eq_true.mp hd c hc
    simp only [decide_eq_true_eq]
    intro he
    rw [he] at this
    exact absurd this (by decide)
  have h2 : ("p".data.filter (fun c => c ≠ 'p')) = [] := by decide
  rw [h1, h2, List.append_nil]

theorem digits_ne_best (h : String) (hd : h.data.all Char.isDigit = true) :
    h ≠ "best" := by
  intro he
  subst he
  exact absurd hd (by decide)

theorem append_p_ne_best (h : String) : h ++ "p" ≠ "best" := by
  intro he
  have hdata : (h ++ "p").data = "best".data := congrArg String.data he
  rw [String.data_append] at hdata
  have hlast := congrArg List.getLast? hdata
  rw [show ("p".data : List Char) = ['p'] from rfl] at hlast
  rw [List.getLast?_concat] at hlast
  cases hlast

theorem findHeightCap_selector (h : String) (tail : List Char)
    (hd : h.data.all Char.isDigit = true) :
    findHeightCap ("bestvideo[height<=".data ++ (h.data ++ (']' :: tail)))
      = some (digitsVal h.data) := by
  rw [show ("bestvideo[height<=".data : List Char)
      = "bestvideo[".data ++ "height<=".data from by decide, List.append_assoc]
  rw [findHeightCap_after "bestvideo[".data _ (by decide)]
  exact findHeightCap_here h.data tail hd

theorem binary_sel_data (h fmt : String) :
    ("bestvideo[height<=" ++ h ++ "][format=" ++ fmt ++ "]+bestaudio/best").data
      = "bestvideo[height<=".data ++ (h.data ++ (']' ::
          ("[format=".data ++ (fmt.data ++ "]+bestaudio/best".data)))) := by
  simp only [String.data_append, List.append_assoc]
  rfl

theorem ydl_sel_data (h : String) :
    ("bestvideo[height<=" ++ h ++ "]+bestaudio/best[height<=" ++ h ++ "]").data
      = "bestvideo[height<=".data ++ (h.data ++ (']' ::
          ("+bestaudio/best[height<=".data ++ (h.data ++ "]".data)))) := by
  simp only [String.data_append, List.append_assoc]
  rfl

/-- Scanning step: `-f` stores the following format selector. -/
theorem scanCmd_f (acc : CmdScan) (b : String) (rest : List String) :
    scanCmd acc ("-f" :: b :: rest) = scanCmd { acc with fmtSel := some b } rest := by
  simp [scanCmd]

/-- Scanning step: `--merge-output-format` stores the following container. -/
theorem scanCmd_mergeFlag (acc : CmdScan) (b : String) (rest : List String) :
    scanCmd acc ("--merge-output-format" :: b :: rest)
      = scanCmd { acc with mergeFmt := some b } rest := by
  simp [scanCmd]

/-- Scanning step: `--audio-format` stores the following codec. -/
theorem scanCmd_audioFormatFlag (acc : CmdScan) (b : String) (rest : List String) :
    scanCmd acc ("--audio-format" :: b :: rest)
      = scanCmd { acc with audioFormat := some b } rest := by
  simp [scanCmd]

/-- Scanning step: `--audio-quality` stores the following tier. -/
theorem scanCmd_audioQualityFlag (acc : CmdScan) (b : String) (rest : List String) :
    scanCmd acc ("--audio-quality" :: b :: rest)
      = scanCmd { acc with audioQuality := some b } rest := by
  simp [scanCmd]

/-- Scanning step: `--ffmpeg-location` and its argument are skipped. -/
theorem scanCmd_ffmpegFlag (acc : CmdScan) (b : String) (rest : List String) :
    scanCmd acc ("--ffmpeg-location" :: b :: rest) = scanCmd acc rest := by
  simp [scanCmd]

/-- Scanning step: `-o` and its argument are skipped. -/
theorem scanCmd_oFlag (acc : CmdScan) (b : String) (rest : List String) :
    scanCmd acc ("-o" :: b :: rest) = scanCmd acc rest := by
  simp [scanCmd]

/-- Scanning step: `-x` raises the extract-audio flag. -/
theorem scanCmd_xFlag (acc : CmdScan) (b : String) (rest : List String) :
    scanCmd acc ("-x" :: b :: rest)
      = scanCmd { acc with extractAudioFlag := true } (b :: rest) := by
  simp [scanCmd]

/-- Scanning step: `--add-metadata` takes no argument and changes nothing. -/
theorem scanCmd_metaFlag (acc : CmdScan) (b : String) (rest : List String) :
    scanCmd acc ("--add-metadata" :: b :: rest) = scanCmd acc (b :: rest) := by
  simp [scanCmd]

/-- Scanning step: a final lone element only matters if it is `-x`. -/
theorem scanCmd_last (acc : CmdScan) (a : String) :
    scanCmd acc [a]
      = if a = "-x" then { acc with extractAudioFlag := true } else acc := by
  simp [scanCmd]

set_option maxHeartbeats 1000000 in
/-- C5: the format-selection policies of the external-process command
builder and the structured option builder agree in the sense the claim
spells out: `best` video quality yields no height ceiling in either
artefact; any other `<N>p` quality yields a `height<=N` cap together with
an explicit output-container merge directive in both; and an audio request
yields a best-audio extraction with the requested codec and quality tier
in both. -/
theorem C5_format_policy_equivalence (binPath dir url title quality fmt : String)
    (ffmpegPath : Option String) (pl : Bool) :
    (quality = "best" →
      binaryHeightCap binPath ffmpegPath
          { url := url, title := title, download_type := "video", quality := quality,
            format_type := fmt, is_playlist := pl } = none ∧
      ydlHeightCap dir ffmpegPath
          { url := url, title := title, download_type := "video", quality := quality,
            format_type := fmt, is_playlist := pl } = none) ∧
    (∀ h : String, h.data.all Char.isDigit = true → quality = h ++ "p" →
      binaryHeightCap binPath ffmpegPath
          { url := url, title := title, download_type := "video", quality := quality,
            format_type := fmt, is_playlist := pl } = some (digitsVal h.data) ∧
      binaryMerge binPath ffmpegPath
          { url := url, title := title, download_type := "video", quality := quality,
            format_type := fmt, is_playlist := pl } = some fmt ∧
      ydlHeightCap dir ffmpegPath
          { url := url, title := title, download_type := "video", quality := quality,
            format_type := fmt, is_playlist := pl } = some (digitsVal h.data) ∧
      ydlMerge dir ffmpegPath
          { url := url, title := title, download_type := "video", quality := quality,
            format_type := fmt, is_playlist := pl } = some fmt) ∧
    (binaryAudio binPath ffmpegPath
        { url := url, title := title, download_type := "audio", quality := quality,
          format_type := fmt, is_playlist := pl } = some (some fmt, some quality) ∧
     ydlAudio dir ffmpegPath
        { url := url, title := title, download_type := "audio", quality := quality,
          format_type := fmt, is_playlist := pl } = some (fmt, quality)) := by
  have hb : stripPChar "best" = "best" := by decide
  refine ⟨?_, ?_, ?_, ?_⟩
  · intro hq
    subst hq
    constructor
    · rcases ffmpegPath with _ | d <;>
        (simp only [binaryHeightCap, binaryScan, buildBinaryCommand, hb,
          String.reduceEq, reduceIte, List.append_eq, List.cons_append,
          List.nil_append, List.append_assoc, List.drop, scanCmd_f,
          scanCmd_ffmpegFlag, scanCmd_oFlag, scanCmd_last];
         split <;> rfl)
    · simp only [ydlHeightCap, buildYdlOptions, String.reduceEq, reduceIte]
      decide
  · intro h hd hq
    subst hq
    have hstrip : stripPChar (h ++ "p") = h := stripPChar_digits_p h hd
    have hnb : ¬(h = "best") := digits_ne_best h hd
    have hnbp : ¬(h ++ "p" = "best") := append_p_ne_best h
    refine ⟨?_, ?_, ?_, ?_⟩
    · rcases ffmpegPath with _ | d <;>
        (simp only [binaryHeightCap, binaryScan, buildBinaryCommand, hstrip,
          if_neg hnb, String.reduceEq, reduceIte];
         split <;>
          (simp only [List.append_eq, List.cons_append, List.nil_append,
            List.append_assoc, List.drop, scanCmd_f, scanCmd_mergeFlag,
            scanCmd_metaFlag, scanCmd_ffmpegFlag, scanCmd_oFlag, scanCmd_last];
           split <;>
            (show findHeightCap
                ("bestvideo[height<=" ++ h ++ "][format=" ++ fmt
                  ++ "]+bestaudio/best").data = some (digitsVal h.data);
             rw [binary_sel_data]; exact findHeightCap_selector h _ hd)))
    · rcases ffmpegPath with _ | d <;>
        (simp only [binaryMerge, binaryScan, buildBinaryCommand, hstrip,
          if_neg hnb, String.reduceEq, reduceIte];
         split <;>
          (simp only [List.append_eq, List.cons_append, List.nil_append,
            List.append_assoc, List.drop, scanCmd_f, scanCmd_mergeFlag,
            scanCmd_metaFlag, scanCmd_ffmpegFlag, scanCmd_oFlag, scanCmd_last];
           split <;> rfl))
    · simp only [ydlHeightCap, buildYdlOptions, String.reduceEq, reduceIte,
        if_neg hnbp, hstrip]
      rw [ydl_sel_data]
      exact findHeightCap_selector h _ hd
    · simp only [ydlMerge, buildYdlOptions, String.reduceEq, reduceIte, if_neg hnbp]
  · rcases ffmpegPath with _ | d <;>
      (simp only [binaryAudio, binaryScan, buildBinaryCommand, String.reduceEq,
        reduceIte, List.append_eq, List.cons_append, List.nil_append,
        List.append_assoc, List.drop, scanCmd_xFlag, scanCmd_audioFormatFlag,
        scanCmd_audioQualityFlag, scanCmd_metaFlag, scanCmd_ffmpegFlag,
        scanCmd_oFlag, scanCmd_last];
       split <;> rfl)
  · simp only [ydlAudio, buildYdlOptions, String.reduceEq, reduceIte, List.findSome?]

/-- C5 witness: the policy agreement evaluated at quality `best` and at
quality `720p`, container `mp4`, audio codec `mp3` at tier `192`. -/
theorem C5_witness :
    (binaryHeightCap "yt-dlp" none
        { url := "u", title := "t", download_type := "video", quality := "best",
          format_type := "mp4", is_playlist := false } = none ∧
      ydlHeightCap "dl" none
        { url := "u", title := "t", download_type := "video", quality := "best",
          format_type := "mp4", is_playlist := false } = none) ∧
    (binaryHeightCap "yt-dlp" none
        { url := "u", title := "t", download_type := "video", quality := "720p",
          format_type := "mp4", is_playlist := false } = some 720 ∧
      binaryMerge "yt-dlp" none
        { url := "u", title := "t", download_type := "video", quality := "720p",
          format_type := "mp4", is_playlist := false } = some "mp4" ∧
      ydlHeightCap "dl" none
        { url := "u", title := "t", download_type := "video", quality := "720p",
          format_type := "mp4", is_playlist := false } = some 720 ∧
      ydlMerge "dl" none
        { url := "u", title := "t", download_type := "video", quality := "720p",
          format_type := "mp4", is_playlist := false } = some "mp4") ∧
    (binaryAudio "yt-dlp" none
        { url := "u", title := "t", download_type := "audio", quality := "192",
          format_type := "mp3", is_playlist := false } = some (some "mp3", some "192") ∧
      ydlAudio "dl" none
        { url := "u", title := "t", download_type := "audio", quality := "192",
          format_type := "mp3", is_playlist := false } = some ("mp3", "192")) :=
  ⟨(C5_format_policy_equivalence "yt-dlp" "dl" "u" "t" "best" "mp4" none false).1 rfl,
   (C5_format_policy_equivalence "yt-dlp" "dl" "u" "t" "720p" "mp4" none false).2.1
     "720" (by decide) rfl,
   (C5_format_policy_equivalence "yt-dlp" "dl" "u" "t" "192" "mp3" none false).2.2⟩

end PyFlow
